import Mathlib

/-!
# Verification of the Flutter Runner extension core (`src/extension.ts`)

Shallow embedding of the run-session lifecycle controller, output classifier,
profile store and manifest detector of the Flutter Runner editor extension.
JavaScript strings are modelled as `List Char`; JS regular expressions used by
the source are modelled as bespoke executable matchers with existence
semantics; the WHATWG `URL` platform API (used by `sanitizeUrl` and
`isLocalWebUrl`) is modelled by an executable parser restricted to absolute
`http`/`https` URLs, documented at its definition.
-/

namespace FlutterRunner

/-- Shorthand: the character list underlying a string literal. -/
def str (s : String) : List Char := s.data

/-- JS whitespace as relevant to `String.prototype.trim`, the regex class `\s`
and line splitting, restricted to the ASCII whitespace characters that can
occur in the tool output handled by the extension (the Unicode space
characters of the full JS definition are omitted from the model). -/
def isJsWs (c : Char) : Bool :=
  c = ' ' || c = '\t' || c = '\n' || c = '\r' || c = '\x0b' || c = '\x0c'

/-- ASCII lowercasing of one character, as performed by
`String.prototype.toLowerCase` (restricted to ASCII) and by WHATWG URL host
canonicalization. -/
def lowerChar (c : Char) : Char :=
  if 65 ≤ c.toNat ∧ c.toNat ≤ 90 then Char.ofNat (c.toNat + 32) else c

/-- ASCII lowercasing of a JS string. -/
def lowerStr (l : List Char) : List Char := l.map lowerChar

/-- Model of `String.prototype.trim`: remove leading and trailing whitespace. -/
def jsTrim (l : List Char) : List Char :=
  ((l.dropWhile isJsWs).reverse.dropWhile isJsWs).reverse

/-- Split a list at the first character satisfying `p`: the first component
has no such character, the second either is empty or starts with one. -/
def splitAtFirst (p : Char → Bool) (l : List Char) : List Char × List Char :=
  (l.takeWhile (fun c => !p c), l.dropWhile (fun c => !p c))

theorem toNat_lowerChar (c : Char) :
    (lowerChar c).toNat =
      if 65 ≤ c.toNat ∧ c.toNat ≤ 90 then c.toNat + 32 else c.toNat := by
  unfold lowerChar
  split
  · next h =>
    have hv : Nat.isValidChar (c.toNat + 32) := by
      left
      omega
    simp only [Char.ofNat]
    rw [dif_pos hv]
    rfl
  · rfl

theorem lowerChar_eq_or (c : Char) :
    lowerChar c = c ∨ (97 ≤ (lowerChar c).toNat ∧ (lowerChar c).toNat ≤ 122) := by
  by_cases h : 65 ≤ c.toNat ∧ c.toNat ≤ 90
  · right
    rw [toNat_lowerChar, if_pos h]
    omega
  · left
    unfold lowerChar
    rw [if_neg h]

theorem char_eq_iff_toNat {c d : Char} : c = d ↔ c.toNat = d.toNat := by
  constructor
  · intro h; rw [h]
  · intro h
    cases c with
    | mk cv hc =>
      cases d with
      | mk dv hd =>
        simp only [Char.toNat] at h
        congr 1
        exact UInt32.ext h

theorem lowerChar_out_of_range (c : Char)
    (h : ¬(65 ≤ c.toNat ∧ c.toNat ≤ 90)) : lowerChar c = c := by
  unfold lowerChar
  rw [if_neg h]

theorem lowerChar_idem (c : Char) : lowerChar (lowerChar c) = lowerChar c := by
  rcases lowerChar_eq_or c with h | h
  · rw [h, h]
  · exact lowerChar_out_of_range _ (by omega)

theorem lowerStr_idem (l : List Char) : lowerStr (lowerStr l) = lowerStr l := by
  unfold lowerStr
  rw [List.map_map]
  apply List.map_congr_left
  intro c _
  exact lowerChar_idem c

/-- Decimal rendering of a natural number, as WHATWG URL serialization renders
a port; structural recursion on a fuel bound (each step divides `n` by 10,
so any fuel above `n` suffices). -/
def natCharsAux : Nat → Nat → List Char
  | 0, _ => []
  | fuel + 1, n =>
    if n < 10 then [Char.ofNat (48 + n)]
    else natCharsAux fuel (n / 10) ++ [Char.ofNat (48 + n % 10)]

def natChars (n : Nat) : List Char := natCharsAux (n + 1) n

/-- Decimal parsing of a digit string, as the WHATWG URL parser reads a port:
defined (`some`) exactly on non-empty all-digit strings. -/
def charsToNat? (l : List Char) : Option Nat :=
  if l ≠ [] ∧ l.all Char.isDigit then
    some (l.foldl (fun a c => a * 10 + (c.toNat - 48)) 0)
  else none

theorem toNat_digitChar (n : Nat) (h : n < 10) :
    (Char.ofNat (48 + n)).toNat = 48 + n := by
  have hv : Nat.isValidChar (48 + n) := by left; omega
  simp only [Char.ofNat]
  rw [dif_pos hv]
  rfl

theorem natCharsAux_digits (fuel : Nat) : ∀ n, n < fuel →
    ∀ c ∈ natCharsAux fuel n, 48 ≤ c.toNat ∧ c.toNat ≤ 57 := by
  induction fuel with
  | zero => intro n hn; omega
  | succ fuel ih =>
    intro n hn c hc
    unfold natCharsAux at hc
    split at hc
    · next h =>
      simp only [List.mem_singleton] at hc
      subst hc
      rw [toNat_digitChar n h]
      omega
    · next h =>
      rw [List.mem_append, List.mem_singleton] at hc
      rcases hc with hc | hc
      · have hdiv : n / 10 < fuel := by
          have := Nat.div_lt_self (show 0 < n by omega) (show 1 < 10 by omega)
          omega
        exact ih (n / 10) hdiv c hc
      · subst hc
        rw [toNat_digitChar (n % 10) (Nat.mod_lt n (by omega))]
        have := Nat.mod_lt n (show 0 < 10 by omega)
        omega

theorem natChars_digits (n : Nat) :
    ∀ c ∈ natChars n, 48 ≤ c.toNat ∧ c.toNat ≤ 57 :=
  natCharsAux_digits (n + 1) n (by omega)

theorem natChars_ne_nil (n : Nat) : natChars n ≠ [] := by
  unfold natChars natCharsAux
  split
  · simp
  · simp

theorem isDigit_of_range {c : Char} (h : 48 ≤ c.toNat ∧ c.toNat ≤ 57) :
    c.isDigit = true := by
  simp only [Char.isDigit, Bool.and_eq_true, decide_eq_true_eq]
  obtain ⟨h1, h2⟩ := h
  have e : c.toNat = c.val.toBitVec.toNat := rfl
  constructor
  · show (48 : UInt32) ≤ c.val
    change (48 : UInt32).toBitVec ≤ c.val.toBitVec
    rw [BitVec.le_def]
    have : ((48 : UInt32).toBitVec).toNat = 48 := rfl
    omega
  · show c.val ≤ (57 : UInt32)
    change c.val.toBitVec ≤ (57 : UInt32).toBitVec
    rw [BitVec.le_def]
    have : ((57 : UInt32).toBitVec).toNat = 57 := rfl
    omega

theorem foldl_digits_val (fuel : Nat) : ∀ n a, n < fuel →
    (natCharsAux fuel n).foldl (fun a c => a * 10 + (c.toNat - 48)) a =
      a * 10 ^ (natCharsAux fuel n).length + n := by
  induction fuel with
  | zero => intro n a hn; omega
  | succ fuel ih =>
    intro n a hn
    unfold natCharsAux
    split
    · next h =>
      simp [List.foldl, toNat_digitChar n h]
    · next h =>
      have hdiv : n / 10 < fuel := by
        have := Nat.div_lt_self (show 0 < n by omega) (show 1 < 10 by omega)
        omega
      rw [List.foldl_append]
      rw [ih (n / 10) a hdiv]
      simp only [List.foldl, List.length_append, List.length_singleton]
      rw [toNat_digitChar (n % 10) (Nat.mod_lt n (by omega))]
      have hmod : 48 + n % 10 - 48 = n % 10 := by omega
      rw [hmod, pow_succ]
      have := Nat.div_add_mod n 10
      ring_nf
      omega

theorem charsToNat_natChars (n : Nat) : charsToNat? (natChars n) = some n := by
  unfold charsToNat?
  rw [if_pos]
  · show some ((natCharsAux (n + 1) n).foldl _ 0) = some n
    rw [foldl_digits_val (n + 1) n 0 (by omega)]
    simp
  · refine ⟨natChars_ne_nil n, ?_⟩
    rw [List.all_eq_true]
    intro c hc
    exact isDigit_of_range (natChars_digits n c hc)

theorem takeWhile_dropWhile_append (q : Char → Bool) (a b : List Char)
    (ha : ∀ c ∈ a, q c = true)
    (hb : ∀ c, b.head? = some c → q c = false) :
    (a ++ b).takeWhile q = a ∧ (a ++ b).dropWhile q = b := by
  induction a with
  | nil =>
    cases b with
    | nil => simp
    | cons c r =>
      have := hb c rfl
      simp [List.takeWhile, List.dropWhile, this]
  | cons c r ihr =>
    have hc : q c = true := ha c (by simp)
    have := ihr fun x hx => ha x (by simp [hx])
    simp only [List.cons_append, List.takeWhile, List.dropWhile, hc]
    refine ⟨?_, this.2⟩
    rw [show r.append b = r ++ b from rfl, this.1]

/-- Lemma: `splitAtFirst` splits an `a ++ b` shape cleanly when no character of `a`
satisfies the predicate and `b` either is empty or starts with one that does. -/
theorem splitAtFirst_append (p : Char → Bool) (a b : List Char)
    (ha : ∀ c ∈ a, p c = false)
    (hb : ∀ c, b.head? = some c → p c = true) :
    splitAtFirst p (a ++ b) = (a, b) := by
  unfold splitAtFirst
  have := takeWhile_dropWhile_append (fun c => !p c) a b
    (fun c hc => by simp [ha c hc])
    (fun c hc => by simp [hb c hc])
  rw [this.1, this.2]

/-! ## Model of the WHATWG `URL` platform API

`sanitizeUrl` and `isLocalWebUrl` in `src/extension.ts` call `new URL(...)`,
a host platform API whose code is not part of this repository. The spec
describes its use as: a candidate substring must parse as an absolute URL;
only `http` and `https` schemes are accepted; the canonicalized string is what
gets stored; `url.protocol` / `url.hostname` give the lowercased scheme and
host (the hostname of an IPv6 literal keeps its brackets). The model below
implements WHATWG parsing of absolute `http(s)` URLs: scheme matching is
case-insensitive, the host is lowercased, an empty or malformed host or port
is a parse failure, a default port (80/443) is dropped, an empty path
serializes as `/`. Simplifications (documented, irrelevant for the tool
output scanned here, whose candidate substrings contain no whitespace):
userinfo, percent-decoding, IPv4 shorthand normalization, IPv6 piece
canonicalization and dot-segment path normalization are not modelled. -/

/-- Characters that terminate the authority component. -/
def isAuthEnd (c : Char) : Bool := c = '/' || c = '?' || c = '#'

/-- Forbidden host characters (WHATWG forbidden host/domain code points,
restricted to ASCII, with `%` conservatively rejected since the model does no
percent-decoding). -/
def isHostForbidden (c : Char) : Bool :=
  c = ' ' || c = '\t' || c = '\n' || c = '\r' || c = '#' || c = '/' ||
  c = '?' || c = '@' || c = '[' || c = ']' || c = '\\' || c = '^' ||
  c = '|' || c = '<' || c = '>' || c = '"' || c = '%' || c = '{' || c = '}'

/-- A parsed absolute `http(s)` URL. `secure` distinguishes `https` from
`http`; `port = none` means absent or default; `host` keeps the brackets of
an IPv6 literal. -/
structure UrlM where
  secure : Bool
  host : List Char
  port : Option Nat
  path : List Char
  query : Option (List Char)
  fragment : Option (List Char)
deriving DecidableEq, Repr

/-- Scheme recognition: case-insensitive `https://` / `http://` prefix. -/
def schemeSplit (l : List Char) : Option (Bool × List Char) :=
  if lowerStr (l.take 8) = str "https://" then some (true, l.drop 8)
  else if lowerStr (l.take 7) = str "http://" then some (false, l.drop 7)
  else none

/-- The scheme's default port, elided by serialization. -/
def defaultPort (secure : Bool) : Nat := if secure then 443 else 80

/-- Port parsing: empty port is null; digits only; out-of-range fails; the
scheme's default port is normalized to absent. -/
def parsePort (secure : Bool) (ps : List Char) : Option (Option Nat) :=
  if ps = [] then some none
  else
    match charsToNat? ps with
    | some n =>
      if n > 65535 then none
      else if n = defaultPort secure then some none
      else some (some n)
    | none => none

/-- Host and port from the authority component: either a bracketed IPv6
literal or a plain host split at the first `:`; the host is lowercased and
must be non-empty and free of forbidden characters. -/
def parseHostPort (secure : Bool) (auth : List Char) :
    Option (List Char × Option Nat) :=
  if auth.head? = some '[' then
    let (inside, after) := splitAtFirst (fun c => c = ']') auth.tail
    if after.head? = some ']' then
      if inside = [] then none
      else
        let host := '[' :: (lowerStr inside ++ [']'])
        if after.tail = [] then some (host, none)
        else if after.tail.head? = some ':' then
          (parsePort secure after.tail.tail).map (fun p => (host, p))
        else none
    else none
  else
    let (h, rest) := splitAtFirst (fun c => c = ':') auth
    let host := lowerStr h
    if host = [] then none
    else if host.any isHostForbidden then none
    else if rest = [] then some (host, none)
    else (parsePort secure rest.tail).map (fun p => (host, p))

/-- Path, query and fragment from the part following the authority; an empty
path canonicalizes to `/`. -/
def parseAfterAuthority (tail : List Char) :
    List Char × Option (List Char) × Option (List Char) :=
  let (p, rest1) := splitAtFirst (fun c => c = '?' || c = '#') tail
  let path := if p = [] then ['/'] else p
  if rest1.head? = some '?' then
    let (q, rest2) := splitAtFirst (fun c => c = '#') rest1.tail
    if rest2.head? = some '#' then (path, some q, some rest2.tail)
    else (path, some q, none)
  else if rest1.head? = some '#' then (path, none, some rest1.tail)
  else (path, none, none)

/-- The model of `new URL(candidate)` for absolute `http(s)` candidates:
`none` models a thrown `TypeError`. -/
def parseUrl (l : List Char) : Option UrlM :=
  match schemeSplit l with
  | none => none
  | some (secure, rest) =>
    let (auth, tail) := splitAtFirst isAuthEnd rest
    match parseHostPort secure auth with
    | none => none
    | some (host, port) =>
      let (path, query, fragment) := parseAfterAuthority tail
      some ⟨secure, host, port, path, query, fragment⟩

/-- Serialization of the port component. -/
def portChars (port : Option Nat) : List Char :=
  match port with
  | some p => ':' :: natChars p
  | none => []

/-- Serialization of the query component. -/
def queryChars (query : Option (List Char)) : List Char :=
  match query with
  | some q => '?' :: q
  | none => []

/-- Serialization of the fragment component. -/
def fragChars (fragment : Option (List Char)) : List Char :=
  match fragment with
  | some f => '#' :: f
  | none => []

/-- The model of `url.toString()`: WHATWG serialization. -/
def urlToString (u : UrlM) : List Char :=
  (if u.secure then str "https://" else str "http://") ++ u.host ++
  portChars u.port ++ u.path ++ queryChars u.query ++ fragChars u.fragment

/-- Model of `sanitizeUrl` from `src/extension.ts` (lines 1105-1115): parse the
candidate, reject non-`http(s)` protocols, return the canonicalized string.
In the model `parseUrl` already only yields `http(s)` URLs, so the source's
protocol test is the always-true test modelled by the redundant guard. -/
def sanitizeUrl (candidate : List Char) : Option (List Char) :=
  match parseUrl candidate with
  | some parsed =>
    if parsed.secure = true ∨ parsed.secure = false then some (urlToString parsed)
    else none
  | none => none

/-- Characters a parsed (hence lowercased) URL component can contain: either
unchanged by lowercasing or a lowercase ASCII letter. -/
theorem char_ne_of_toNat_range {x d : Char} (hx : 97 ≤ x.toNat ∧ x.toNat ≤ 122)
    (hd : d.toNat < 97 ∨ 122 < d.toNat) : x ≠ d := fun h => by
  rw [char_eq_iff_toNat] at h
  omega

theorem lowerChar_ne_of_small {c d : Char} (hd : d.toNat < 97 ∨ 122 < d.toNat)
    (h : c ≠ d) : lowerChar c ≠ d := by
  rcases lowerChar_eq_or c with he | hr
  · rw [he]
    exact h
  · exact char_ne_of_toNat_range hr hd

theorem isHostForbidden_of_letter {x : Char}
    (hx : 97 ≤ x.toNat ∧ x.toNat ≤ 122) : isHostForbidden x = false := by
  have e1 : (' ' : Char).toNat = 32 := rfl
  have e2 : ('\t' : Char).toNat = 9 := rfl
  have e3 : ('\n' : Char).toNat = 10 := rfl
  have e4 : ('\r' : Char).toNat = 13 := rfl
  have e5 : ('#' : Char).toNat = 35 := rfl
  have e6 : ('/' : Char).toNat = 47 := rfl
  have e7 : ('?' : Char).toNat = 63 := rfl
  have e8 : ('@' : Char).toNat = 64 := rfl
  have e9 : ('[' : Char).toNat = 91 := rfl
  have e10 : (']' : Char).toNat = 93 := rfl
  have e11 : ('\\' : Char).toNat = 92 := rfl
  have e12 : ('^' : Char).toNat = 94 := rfl
  have e13 : ('|' : Char).toNat = 124 := rfl
  have e14 : ('<' : Char).toNat = 60 := rfl
  have e15 : ('>' : Char).toNat = 62 := rfl
  have e16 : ('"' : Char).toNat = 34 := rfl
  have e17 : ('%' : Char).toNat = 37 := rfl
  have e18 : ('{' : Char).toNat = 123 := rfl
  have e19 : ('}' : Char).toNat = 125 := rfl
  unfold isHostForbidden
  simp only [Bool.or_eq_false_iff, decide_eq_false_iff_not, char_eq_iff_toNat]
  omega

theorem isAuthEnd_of_letter {x : Char}
    (hx : 97 ≤ x.toNat ∧ x.toNat ≤ 122) : isAuthEnd x = false := by
  have e6 : ('/' : Char).toNat = 47 := rfl
  have e7 : ('?' : Char).toNat = 63 := rfl
  have e5 : ('#' : Char).toNat = 35 := rfl
  unfold isAuthEnd
  simp only [Bool.or_eq_false_iff, decide_eq_false_iff_not, char_eq_iff_toNat]
  omega

theorem lowerChar_preserves_not_forbidden {c : Char}
    (h : isHostForbidden c = false) : isHostForbidden (lowerChar c) = false := by
  rcases lowerChar_eq_or c with he | hr
  · rw [he]
    exact h
  · exact isHostForbidden_of_letter hr

theorem lowerChar_preserves_not_authEnd {c : Char}
    (h : isAuthEnd c = false) : isAuthEnd (lowerChar c) = false := by
  rcases lowerChar_eq_or c with he | hr
  · rw [he]
    exact h
  · exact isAuthEnd_of_letter hr

/-- Invariant of every `parseUrl` result: exactly the facts making WHATWG
serialization parse back to the same record. -/
def WFhost (host : List Char) : Prop :=
  (host ≠ [] ∧ lowerStr host = host ∧
    (∀ c ∈ host, isHostForbidden c = false) ∧
    (∀ c ∈ host, c ≠ ':') ∧ (∀ c ∈ host, isAuthEnd c = false))
  ∨ (∃ inside, host = '[' :: (inside ++ [']']) ∧ inside ≠ [] ∧
      lowerStr inside = inside ∧ (∀ c ∈ inside, c ≠ ']') ∧
      (∀ c ∈ inside, isAuthEnd c = false))

def WF (u : UrlM) : Prop :=
  WFhost u.host ∧
  (∀ p ∈ u.port, p ≤ 65535 ∧ p ≠ defaultPort u.secure) ∧
  u.path.head? = some '/' ∧
  (∀ c ∈ u.path, (c = '?' || c = '#') = false) ∧
  (∀ q ∈ u.query, ∀ c ∈ q, c ≠ '#')

theorem parsePort_wf {secure : Bool} {ps : List Char} {port : Option Nat}
    (h : parsePort secure ps = some port) :
    ∀ p ∈ port, p ≤ 65535 ∧ p ≠ defaultPort secure := by
  unfold parsePort at h
  split at h
  · cases h
    simp
  · split at h
    · next n hn =>
      split at h
      · exact absurd h (by simp)
      · split at h
        · cases h
          simp
        · next h2 h3 =>
          cases h
          intro p hp
          rw [Option.mem_def, Option.some_inj] at hp
          subst hp
          exact ⟨by omega, h3⟩
    · exact absurd h (by simp)

theorem mem_of_mem_tail {c : Char} {l : List Char} (h : c ∈ l.tail) : c ∈ l := by
  cases l with
  | nil => simp at h
  | cons a as => exact List.mem_cons_of_mem a h

theorem parseHostPort_wf {secure : Bool} {auth host : List Char}
    {port : Option Nat}
    (hauth : ∀ c ∈ auth, isAuthEnd c = false)
    (h : parseHostPort secure auth = some (host, port)) :
    WFhost host ∧ (∀ p ∈ port, p ≤ 65535 ∧ p ≠ defaultPort secure) := by
  have hclose : ((']' : Char).toNat < 97 ∨ 122 < (']' : Char).toNat) := by
    have e : (']' : Char).toNat = 93 := rfl
    omega
  have hcolon : ((':' : Char).toNat < 97 ∨ 122 < (':' : Char).toNat) := by
    have e : ((':' : Char)).toNat = 58 := rfl
    omega
  unfold parseHostPort at h
  split at h
  · -- bracketed IPv6 literal
    next hbr =>
    simp only [splitAtFirst] at h
    split at h
    · next hcl =>
      split at h
      · exact absurd h (by simp)
      · next hne =>
        have hmemtail : ∀ c ∈ auth.tail, isAuthEnd c = false := fun c hc =>
          hauth c (mem_of_mem_tail hc)
        have hinside : ∀ c ∈ auth.tail.takeWhile (fun c => !decide (c = ']')),
            isAuthEnd c = false := fun c hc =>
          hmemtail c ((List.takeWhile_sublist _).subset hc)
        have hinsidene : ∀ c ∈ auth.tail.takeWhile (fun c => !decide (c = ']')),
            c ≠ ']' := fun c hc => by
          have := List.mem_takeWhile_imp hc
          simpa using this
        have hwf : WFhost ('[' ::
            (lowerStr (auth.tail.takeWhile (fun c => !decide (c = ']'))) ++ [']'])) := by
          right
          refine ⟨lowerStr (auth.tail.takeWhile (fun c => !decide (c = ']'))),
            rfl, ?_, lowerStr_idem _, ?_, ?_⟩
          · intro hemp
            exact hne (by simpa [lowerStr] using hemp)
          · intro c hc
            rw [lowerStr, List.mem_map] at hc
            obtain ⟨c0, hc0, rfl⟩ := hc
            exact lowerChar_ne_of_small hclose (hinsidene c0 hc0)
          · intro c hc
            rw [lowerStr, List.mem_map] at hc
            obtain ⟨c0, hc0, rfl⟩ := hc
            exact lowerChar_preserves_not_authEnd (hinside c0 hc0)
        split at h
        · cases h
          exact ⟨hwf, by simp⟩
        · split at h
          · rw [Option.map_eq_some'] at h
            obtain ⟨p, hp, heq⟩ := h
            simp only [Prod.mk.injEq] at heq
            obtain ⟨heq1, heq2⟩ := heq
            subst heq1
            subst heq2
            exact ⟨hwf, parsePort_wf hp⟩
          · exact absurd h (by simp)
    · exact absurd h (by simp)
  · -- plain host
    next hbr =>
    simp only [splitAtFirst] at h
    split at h
    · exact absurd h (by simp)
    · next hne =>
      split at h
      · exact absurd h (by simp)
      · next hforb =>
        have hplaine : ∀ c ∈ auth.takeWhile (fun c => !decide (c = ':')),
            c ≠ ':' := fun c hc => by
          have := List.mem_takeWhile_imp hc
          simpa using this
        have hplainauth : ∀ c ∈ auth.takeWhile (fun c => !decide (c = ':')),
            isAuthEnd c = false := fun c hc =>
          hauth c ((List.takeWhile_sublist _).subset hc)
        have hwf : WFhost (lowerStr (auth.takeWhile (fun c => !decide (c = ':')))) := by
          left
          refine ⟨hne, lowerStr_idem _, ?_, ?_, ?_⟩
          · intro c hc
            rcases Bool.eq_false_or_eq_true (isHostForbidden c) with ht | hf
            · exfalso
              apply hforb
              rw [List.any_eq_true]
              exact ⟨c, hc, ht⟩
            · exact hf
          · intro c hc
            rw [lowerStr, List.mem_map] at hc
            obtain ⟨c0, hc0, rfl⟩ := hc
            exact lowerChar_ne_of_small hcolon (hplaine c0 hc0)
          · intro c hc
            rw [lowerStr, List.mem_map] at hc
            obtain ⟨c0, hc0, rfl⟩ := hc
            exact lowerChar_preserves_not_authEnd (hplainauth c0 hc0)
        split at h
        · cases h
          exact ⟨hwf, by simp⟩
        · rw [Option.map_eq_some'] at h
          obtain ⟨p, hp, heq⟩ := h
          simp only [Prod.mk.injEq] at heq
          obtain ⟨heq1, heq2⟩ := heq
          subst heq1
          subst heq2
          exact ⟨hwf, parsePort_wf hp⟩

theorem parseAfterAuthority_wf {tail path : List Char}
    {query fragment : Option (List Char)}
    (htail : ∀ c, tail.head? = some c → isAuthEnd c = true)
    (h : parseAfterAuthority tail = (path, query, fragment)) :
    path.head? = some '/' ∧
    (∀ c ∈ path, (c = '?' || c = '#') = false) ∧
    (∀ q ∈ query, ∀ c ∈ q, c ≠ '#') := by
  unfold parseAfterAuthority at h
  simp only [splitAtFirst] at h
  have hhead : (if List.takeWhile (fun c => !(decide (c = '?') || decide (c = '#'))) tail = []
      then ['/'] else List.takeWhile (fun c => !(decide (c = '?') || decide (c = '#'))) tail).head?
      = some '/' := by
    split
    · rfl
    · next hp =>
      cases tail with
      | nil => simp at hp
      | cons t ts =>
        rw [List.takeWhile_cons] at hp ⊢
        by_cases hb : (!(decide (t = '?') || decide (t = '#'))) = true
        · rw [if_pos hb]
          simp only [List.head?_cons, Option.some_inj]
          have ha := htail t rfl
          simp only [isAuthEnd, Bool.or_eq_true, decide_eq_true_eq] at ha
          simp only [Bool.not_eq_true', Bool.or_eq_false_iff,
            decide_eq_false_iff_not] at hb
          tauto
        · rw [if_neg hb] at hp
          simp at hp
  have hmem : ∀ c ∈ (if List.takeWhile (fun c => !(decide (c = '?') || decide (c = '#'))) tail = []
      then ['/'] else List.takeWhile (fun c => !(decide (c = '?') || decide (c = '#'))) tail),
      (c = '?' || c = '#') = false := by
    split
    · intro c hc
      simp only [List.mem_singleton] at hc
      subst hc
      decide
    · intro c hc
      have := List.mem_takeWhile_imp hc
      simpa using this
  have hqmem : ∀ c ∈ List.takeWhile (fun c => !decide (c = '#'))
      (List.dropWhile (fun c => !(decide (c = '?') || decide (c = '#'))) tail).tail,
      c ≠ '#' := by
    intro c hc
    have := List.mem_takeWhile_imp hc
    simpa using this
  split at h
  · split at h
    · rw [Prod.mk.injEq, Prod.mk.injEq] at h
      obtain ⟨h1, h2, h3⟩ := h
      subst h1
      subst h2
      exact ⟨hhead, hmem, by simpa using hqmem⟩
    · rw [Prod.mk.injEq, Prod.mk.injEq] at h
      obtain ⟨h1, h2, h3⟩ := h
      subst h1
      subst h2
      exact ⟨hhead, hmem, by simpa using hqmem⟩
  · split at h
    · rw [Prod.mk.injEq, Prod.mk.injEq] at h
      obtain ⟨h1, h2, h3⟩ := h
      subst h1
      subst h2
      exact ⟨hhead, hmem, by simp⟩
    · rw [Prod.mk.injEq, Prod.mk.injEq] at h
      obtain ⟨h1, h2, h3⟩ := h
      subst h1
      subst h2
      exact ⟨hhead, hmem, by simp⟩

/-- Every `parseUrl` result is well-formed. -/
theorem parseUrl_wf {l : List Char} {u : UrlM} (h : parseUrl l = some u) :
    WF u := by
  unfold parseUrl at h
  cases hs : schemeSplit l with
  | none =>
    rw [hs] at h
    exact absurd h (by simp)
  | some sr =>
    obtain ⟨secure, rest⟩ := sr
    rw [hs] at h
    simp only [splitAtFirst] at h
    cases hp : parseHostPort secure (List.takeWhile (fun c => !isAuthEnd c) rest) with
    | none =>
      rw [hp] at h
      exact absurd h (by simp)
    | some hostport =>
      obtain ⟨host, port⟩ := hostport
      rw [hp] at h
      have hauth : ∀ c ∈ List.takeWhile (fun c => !isAuthEnd c) rest,
          isAuthEnd c = false := by
        intro c hc
        have := List.mem_takeWhile_imp hc
        simpa using this
      have htail : ∀ c, (List.dropWhile (fun c => !isAuthEnd c) rest).head? = some c →
          isAuthEnd c = true := by
        intro c hc
        have h2 := List.head?_dropWhile_not (fun c => !isAuthEnd c) rest
        rw [hc] at h2
        simpa using h2
      obtain ⟨hwfhost, hwfport⟩ := parseHostPort_wf hauth hp
      rcases hT : parseAfterAuthority (List.dropWhile (fun c => !isAuthEnd c) rest)
        with ⟨path, query, fragment⟩
      rw [hT] at h
      cases h
      obtain ⟨hph, hpm, hqm⟩ := parseAfterAuthority_wf htail hT
      exact ⟨hwfhost, hwfport, hph, hpm, hqm⟩

theorem isAuthEnd_of_digit {x : Char} (hx : 48 ≤ x.toNat ∧ x.toNat ≤ 57) :
    isAuthEnd x = false := by
  have e6 : ('/' : Char).toNat = 47 := rfl
  have e7 : ('?' : Char).toNat = 63 := rfl
  have e5 : ('#' : Char).toNat = 35 := rfl
  unfold isAuthEnd
  simp only [Bool.or_eq_false_iff, decide_eq_false_iff_not, char_eq_iff_toNat]
  omega

theorem char_ne_of_digit {x d : Char} (hx : 48 ≤ x.toNat ∧ x.toNat ≤ 57)
    (hd : d.toNat < 48 ∨ 57 < d.toNat) : x ≠ d := fun h => by
  rw [char_eq_iff_toNat] at h
  omega

theorem schemeSplit_https (R : List Char) :
    schemeSplit (str "https://" ++ R) = some (true, R) := by
  unfold schemeSplit
  have h8 : (str "https://").length = 8 := rfl
  rw [if_pos]
  · rw [← h8, List.drop_left]
  · rw [← h8, List.take_left]
    decide

theorem schemeSplit_http (R : List Char) (hR : R ≠ []) :
    schemeSplit (str "http://" ++ R) = some (false, R) := by
  unfold schemeSplit
  have h7 : (str "http://").length = 7 := rfl
  cases R with
  | nil => exact absurd rfl hR
  | cons r0 R0 =>
    rw [if_neg, if_pos]
    · rw [← h7, List.drop_left]
    · rw [← h7, List.take_left]
      decide
    · have htake : (str "http://" ++ (r0 :: R0)).take 8 =
          str "http://" ++ [r0] := by
        have : (8 : Nat) = (str "http://").length + 1 := rfl
        rw [this, List.take_append]
        simp
      rw [htake]
      intro heq
      have e1 : str "http://" = ['h', 't', 't', 'p', ':', '/', '/'] := rfl
      have e2 : str "https://" = ['h', 't', 't', 'p', 's', ':', '/', '/'] := rfl
      rw [e1, e2] at heq
      simp only [lowerStr, List.map_append, List.map_cons, List.map_nil,
        List.cons_append, List.nil_append, List.cons.injEq] at heq
      have hcolon : lowerChar ':' = ':' := by decide
      rw [hcolon] at heq
      obtain ⟨-, -, -, -, hbad, -⟩ := heq
      exact absurd hbad (by decide)

theorem parsePort_roundtrip (secure : Bool) (p : Nat) (h1 : p ≤ 65535)
    (h2 : p ≠ defaultPort secure) :
    parsePort secure (natChars p) = some (some p) := by
  unfold parsePort
  rw [if_neg (natChars_ne_nil p), charsToNat_natChars]
  show (if p > 65535 then none
    else if p = defaultPort secure then some none else some (some p)) =
    some (some p)
  rw [if_neg (by omega), if_neg h2]

theorem portChars_head {port : Option Nat} {c : Char}
    (hc : (portChars port).head? = some c) : c = ':' := by
  cases port with
  | none => simp [portChars] at hc
  | some p =>
    simp only [portChars, List.head?_cons, Option.some_inj] at hc
    exact hc.symm

theorem parseHostPort_roundtrip (secure : Bool) (host : List Char)
    (port : Option Nat) (hh : WFhost host)
    (hp : ∀ p ∈ port, p ≤ 65535 ∧ p ≠ defaultPort secure) :
    parseHostPort secure (host ++ portChars port) = some (host, port) := by
  rcases hh with ⟨hne, hlow, hforb, hcolon, _⟩ |
    ⟨inside, hhost, hine, hilow, hibr, _⟩
  · -- plain host
    cases host with
    | nil => exact absurd rfl hne
    | cons h0 hs =>
      have hh0 : h0 ≠ '[' := by
        intro hcontra
        have := hforb h0 (by simp)
        rw [hcontra] at this
        exact absurd this (by decide)
      have hsplit : splitAtFirst (fun c => decide (c = ':'))
          ((h0 :: hs) ++ portChars port) = (h0 :: hs, portChars port) := by
        apply splitAtFirst_append
        · intro c hc
          simp only [decide_eq_false_iff_not]
          exact hcolon c hc
        · intro c hc
          simp only [decide_eq_true_eq]
          exact portChars_head hc
      unfold parseHostPort
      rw [if_neg (by
        simp only [List.cons_append, List.head?_cons, Option.some_inj]
        exact hh0)]
      simp only [hsplit]
      rw [show lowerStr (h0 :: hs) = h0 :: hs from hlow]
      rw [if_neg hne]
      rw [if_neg (by
        intro hany
        rw [List.any_eq_true] at hany
        obtain ⟨c, hc, htrue⟩ := hany
        rw [hforb c hc] at htrue
        exact absurd htrue (by simp))]
      cases port with
      | none => simp [portChars]
      | some p =>
        simp only [portChars]
        rw [if_neg (by simp)]
        simp only [List.tail_cons]
        rw [parsePort_roundtrip secure p (hp p rfl).1 (hp p rfl).2]
        rfl
  · -- bracketed IPv6 literal
    subst hhost
    have hassoc : ('[' :: (inside ++ [']'])) ++ portChars port =
        '[' :: (inside ++ (']' :: portChars port)) := by
      simp
    rw [hassoc]
    have hsplit : splitAtFirst (fun c => decide (c = ']'))
        (inside ++ (']' :: portChars port)) =
        (inside, ']' :: portChars port) := by
      apply splitAtFirst_append
      · intro c hc
        simp only [decide_eq_false_iff_not]
        exact hibr c hc
      · intro c hc
        simp only [List.head?_cons, Option.some_inj] at hc
        subst hc
        decide
    unfold parseHostPort
    rw [if_pos (by simp)]
    simp only [List.tail_cons, hsplit]
    rw [if_pos (by simp)]
    rw [if_neg hine]
    rw [show lowerStr inside = inside from hilow]
    cases port with
    | none => simp [portChars]
    | some p =>
      simp only [portChars]
      rw [if_neg (by simp)]
      rw [if_pos (by simp)]
      simp only [List.tail_cons]
      rw [parsePort_roundtrip secure p (hp p rfl).1 (hp p rfl).2]
      rfl

theorem parseAfterAuthority_roundtrip (path : List Char)
    (query fragment : Option (List Char))
    (hhead : path.head? = some '/')
    (hmem : ∀ c ∈ path, (c = '?' || c = '#') = false)
    (hq : ∀ q ∈ query, ∀ c ∈ q, c ≠ '#') :
    parseAfterAuthority (path ++ (queryChars query ++ fragChars fragment)) =
      (path, query, fragment) := by
  have hpne : path ≠ [] := by
    intro he
    rw [he] at hhead
    simp at hhead
  have hsplit1 : splitAtFirst (fun c => decide (c = '?') || decide (c = '#'))
      (path ++ (queryChars query ++ fragChars fragment)) =
      (path, queryChars query ++ fragChars fragment) := by
    apply splitAtFirst_append
    · exact fun c hc => by simpa using hmem c hc
    · intro c hc
      cases query with
      | some q =>
        simp only [queryChars, List.cons_append, List.head?_cons,
          Option.some_inj] at hc
        subst hc
        decide
      | none =>
        cases fragment with
        | some f =>
          simp only [queryChars, fragChars, List.nil_append, List.head?_cons,
            Option.some_inj] at hc
          subst hc
          decide
        | none => simp [queryChars, fragChars] at hc
  unfold parseAfterAuthority
  simp only [splitAtFirst] at hsplit1 ⊢
  rw [Prod.mk.injEq] at hsplit1
  rw [hsplit1.1, hsplit1.2]
  rw [if_neg hpne]
  cases query with
  | some q =>
    have hq2 : splitAtFirst (fun c => decide (c = '#'))
        (q ++ fragChars fragment) = (q, fragChars fragment) := by
      apply splitAtFirst_append
      · intro c hc
        simp only [decide_eq_false_iff_not]
        exact hq q rfl c hc
      · intro c hc
        cases fragment with
        | some f =>
          simp only [fragChars, List.head?_cons, Option.some_inj] at hc
          subst hc
          decide
        | none => simp [fragChars] at hc
    simp only [splitAtFirst] at hq2
    rw [Prod.mk.injEq] at hq2
    rw [if_pos (by simp [queryChars])]
    simp only [queryChars, List.cons_append, List.tail_cons]
    rw [hq2.1, hq2.2]
    cases fragment with
    | some f =>
      rw [if_pos (by simp [fragChars])]
      simp [fragChars]
    | none =>
      rw [if_neg (by simp [fragChars])]
  | none =>
    cases fragment with
    | some f =>
      rw [if_neg (by simp [queryChars, fragChars])]
      rw [if_pos (by simp [queryChars, fragChars])]
      simp [queryChars, fragChars]
    | none =>
      rw [if_neg (by simp [queryChars, fragChars])]
      rw [if_neg (by simp [queryChars, fragChars])]

/-- WHATWG serialization of a well-formed URL record parses back to the same
record: the round-trip behind `sanitizeUrl`-then-`isLocalWebUrl`. -/
theorem parseUrl_urlToString {u : UrlM} (h : WF u) :
    parseUrl (urlToString u) = some u := by
  obtain ⟨hhost, hport, hhead, hmem, hq⟩ := h
  have hhostne : u.host ≠ [] := by
    rcases hhost with ⟨hne, -⟩ | ⟨inside, hhost, -⟩
    · exact hne
    · rw [hhost]
      simp
  have hhostauth : ∀ c ∈ u.host, isAuthEnd c = false := by
    rcases hhost with ⟨-, -, -, -, hauth⟩ | ⟨inside, hhosteq, -, -, hibr, hiauth⟩
    · exact hauth
    · intro c hc
      rw [hhosteq] at hc
      rcases List.mem_cons.mp hc with rfl | hc2
      · decide
      · rcases List.mem_append.mp hc2 with hc3 | hc3
        · exact hiauth c hc3
        · rw [List.mem_singleton] at hc3
          subst hc3
          decide
  have hR : urlToString u =
      (if u.secure then str "https://" else str "http://") ++
        ((u.host ++ portChars u.port) ++
          (u.path ++ (queryChars u.query ++ fragChars u.fragment))) := by
    unfold urlToString
    simp [List.append_assoc]
  have hRne : ((u.host ++ portChars u.port) ++
      (u.path ++ (queryChars u.query ++ fragChars u.fragment))) ≠ [] := by
    intro he
    rcases List.append_eq_nil.mp he with ⟨h1, -⟩
    rcases List.append_eq_nil.mp h1 with ⟨h2, -⟩
    exact hhostne h2
  have hscheme : schemeSplit (urlToString u) =
      some (u.secure, (u.host ++ portChars u.port) ++
        (u.path ++ (queryChars u.query ++ fragChars u.fragment))) := by
    rw [hR]
    cases u.secure with
    | true => exact schemeSplit_https _
    | false => exact schemeSplit_http _ hRne
  have hsplit : splitAtFirst isAuthEnd
      ((u.host ++ portChars u.port) ++
        (u.path ++ (queryChars u.query ++ fragChars u.fragment))) =
      (u.host ++ portChars u.port,
        u.path ++ (queryChars u.query ++ fragChars u.fragment)) := by
    apply splitAtFirst_append
    · intro c hc
      rcases List.mem_append.mp hc with hc1 | hc1
      · exact hhostauth c hc1
      · cases hu : u.port with
        | none => rw [hu] at hc1; simp [portChars] at hc1
        | some p =>
          rw [hu] at hc1
          simp only [portChars] at hc1
          rcases List.mem_cons.mp hc1 with rfl | hc2
          · decide
          · exact isAuthEnd_of_digit (natChars_digits p c hc2)
    · intro c hc
      rw [List.head?_append_of_ne_nil] at hc
      · rw [hhead] at hc
        rw [Option.some_inj] at hc
        subst hc
        decide
      · intro he
        rw [he] at hhead
        simp at hhead
  simp only [parseUrl, hscheme, hsplit,
    parseHostPort_roundtrip u.secure u.host u.port hhost hport,
    parseAfterAuthority_roundtrip u.path u.query u.fragment hhead hmem hq]

/-- The loopback host allowlist from `isLocalWebUrl`. -/
def isLoopbackHost (h : List Char) : Bool :=
  h = str "127.0.0.1" || h = str "localhost" || h = str "[::1]"

/-- Model of `isLocalWebUrl` from `src/extension.ts` (lines 1122-1132): the URL must
reparse, have protocol exactly `http:`, and a loopback hostname. -/
def isLocalWebUrl (url : List Char) : Bool :=
  match parseUrl url with
  | some parsed => parsed.secure = false && isLoopbackHost parsed.host
  | none => false

/-! ## Output classifier: line splitting and URL-shaped substrings

The source splits chunks with `split(/\r?\n/)`, tests lines with the
case-insensitive marker regex `/devtools/i`, and extracts URL-shaped
substrings with `DEVTOOLS_URL_PATTERN = /(https?:\/\/[^\s)]+)/i` (first
match) and `URL_PATTERN_GLOBAL = /https?:\/\/[^\s)]+/gi` (all matches,
left-to-right, non-overlapping). -/

/-- Model of `String.prototype.split(/\r?\n/)`: cut at every `\n`, additionally
removing one `\r` immediately before the `\n`. -/
def splitLinesAux : Nat → List Char → List (List Char)
  | 0, _ => []
  | fuel + 1, l =>
    let line := l.takeWhile (fun c => !(c = '\n'))
    let rest := l.dropWhile (fun c => !(c = '\n'))
    let line2 := if line.getLast? = some '\r' then line.dropLast else line
    if rest = [] then [line2]
    else line2 :: splitLinesAux fuel rest.tail

/-- Fuel adequacy: each iteration strictly shortens the input (the dropped
separator), so `length + 1` fuel always suffices. -/
def splitLines (l : List Char) : List (List Char) :=
  splitLinesAux (l.length + 1) l

/-- Case-sensitive substring containment (loop over suffixes testing a
prefix match). -/
def containsSub (hay needle : List Char) : Bool :=
  match hay with
  | [] => needle = []
  | _ :: t => needle.isPrefixOf hay || containsSub t needle

/-- Model of `/marker/i.test(line)`: case-insensitive substring containment. -/
def containsCI (hay needle : List Char) : Bool :=
  containsSub (lowerStr hay) (lowerStr needle)

/-- A character the regex class `[^\s)]` accepts. -/
def urlBodyChar (c : Char) : Bool := !isJsWs c && !(c = ')')

/-- The length of the case-insensitive scheme prefix `https?:\/\/` at the
start of `l`, if it matches there. -/
def schemePrefixLen (l : List Char) : Option Nat :=
  if lowerStr (l.take 8) = str "https://" then some 8
  else if lowerStr (l.take 7) = str "http://" then some 7
  else none

/-- The body of a URL match after a scheme prefix of length `k`: the maximal
non-empty run of `[^\s)]` characters; returns (matched text, remainder). -/
def matchUrlBody (l : List Char) (k : Nat) : Option (List Char × List Char) :=
  if (l.drop k).takeWhile urlBodyChar = [] then none
  else some (l.take k ++ (l.drop k).takeWhile urlBodyChar,
    (l.drop k).dropWhile urlBodyChar)

/-- Match the regex `https?:\/\/[^\s)]+` anchored at the start of `l`. -/
def matchUrlAt (l : List Char) : Option (List Char × List Char) :=
  (schemePrefixLen l).bind (matchUrlBody l)

theorem matchUrlAt_shrinks {l m rest : List Char}
    (h : matchUrlAt l = some (m, rest)) : rest.length < l.length := by
  unfold matchUrlAt at h
  cases hk : schemePrefixLen l with
  | none =>
    rw [hk] at h
    exact absurd h (by simp)
  | some k =>
    rw [hk, Option.some_bind] at h
    unfold matchUrlBody at h
    split at h
    · exact absurd h (by simp)
    · next hbody =>
      rw [Option.some_inj, Prod.mk.injEq] at h
      obtain ⟨-, hrest⟩ := h
      cases hd : l.drop k with
      | nil =>
        rw [hd] at hbody
        simp at hbody
      | cons a as =>
        have hkl : k < l.length := by
          by_contra hge
          push_neg at hge
          rw [List.drop_eq_nil_of_le hge] at hd
          exact absurd hd (by simp)
        have hba : urlBodyChar a = true := by
          by_contra hba
          rw [Bool.not_eq_true] at hba
          rw [hd, List.takeWhile_cons, if_neg (by simp [hba])] at hbody
          exact hbody rfl
        have hlen : as.length + 1 = l.length - k := by
          have hcg := congrArg List.length hd
          rw [List.length_drop] at hcg
          simp only [List.length_cons] at hcg
          omega
        have hle : rest.length ≤ as.length := by
          rw [← hrest, hd, List.dropWhile_cons, if_pos (by simp [hba])]
          exact List.Sublist.length_le (List.dropWhile_sublist _)
        omega

/-- All matches of the global regex `URL_PATTERN_GLOBAL` in a chunk,
left-to-right, resuming after each match as `lastIndex` does; by
`matchUrlAt_shrinks` every step strictly shortens the input, so `length + 1`
fuel always suffices. -/
def urlMatchesAux : Nat → List Char → List (List Char)
  | 0, _ => []
  | fuel + 1, l =>
    match matchUrlAt l with
    | some (m, rest) => m :: urlMatchesAux fuel rest
    | none =>
      match l with
      | [] => []
      | _ :: t => urlMatchesAux fuel t

def urlMatches (l : List Char) : List (List Char) :=
  urlMatchesAux (l.length + 1) l

/-- The first match of `DEVTOOLS_URL_PATTERN` in a line (`line.match(...)`,
non-global). -/
def firstUrlMatchAux : Nat → List Char → Option (List Char)
  | 0, _ => none
  | fuel + 1, l =>
    match matchUrlAt l with
    | some (m, _) => some m
    | none =>
      match l with
      | [] => none
      | _ :: t => firstUrlMatchAux fuel t

def firstUrlMatch (l : List Char) : Option (List Char) :=
  firstUrlMatchAux (l.length + 1) l

/-! ## Profile store (`getProfiles`, `getActiveProfile`, profile editing)

Persisted profiles live in the workspace configuration. A persisted entry may
lack fields (TS `undefined`), modelled with `Option`; the extra opaque fields
the source spreads through (`...profile`) carry no behavior and are omitted.
-/

structure RawProfile where
  name : Option (List Char)
  dartEntrypoint : Option (List Char)
  flavor : Option (List Char)
deriving DecidableEq, Repr

structure RunProfile where
  name : List Char
  dartEntrypoint : List Char
  flavor : List Char
deriving DecidableEq, Repr

/-- The persisted configuration surface read and written by the extension. -/
structure Config where
  profiles : List RawProfile
  activeProfile : List Char
  hotReloadOnSave : Bool
deriving DecidableEq, Repr

/-- Model of `(profile.dartEntrypoint || "").trim() || "lib/main.dart"`. -/
def normEntry (e : Option (List Char)) : List Char :=
  let t := jsTrim (e.getD [])
  if t = [] then str "lib/main.dart" else t

/-- Model of `getProfiles` (lines 510-526): keep entries whose `name` is a string,
normalize entrypoint and flavor; an empty normalized list yields the single
synthetic default profile. -/
def getProfiles (persisted : List RawProfile) : List RunProfile :=
  let normalized := persisted.filterMap (fun p =>
    match p.name with
    | some n => some ⟨n, normEntry p.dartEntrypoint, jsTrim (p.flavor.getD [])⟩
    | none => none)
  if normalized.length > 0 then normalized
  else [⟨str "default", str "lib/main.dart", []⟩]

/-- Model of `getActiveProfile` (lines 528-533): the profile named by the configured
active name, else the first listed profile (`?? profiles[0]`). -/
def getActiveProfile (cfg : Config) : Option RunProfile :=
  let profiles := getProfiles cfg.profiles
  match profiles.find? (fun p => p.name = cfg.activeProfile) with
  | some p => some p
  | none => profiles.head?

/-- Operation `listProfiles` as a configuration-store operation: it only reads the
store, returning the listed profiles and the untouched configuration
(`getProfiles` performs no `update` call). -/
def listProfiles (cfg : Config) : List RunProfile × Config :=
  (getProfiles cfg.profiles, cfg)

/-- Model of `saveProfiles` (lines 438-442): replace the whole persisted list. -/
def saveProfiles (cfg : Config) (profiles : List RawProfile) : Config :=
  { cfg with profiles := profiles }

def profileToRaw (p : RunProfile) : RawProfile :=
  ⟨some p.name, some p.dartEntrypoint, some p.flavor⟩

/-- A form submission from the profile webview. -/
structure FormPayload where
  name : List Char
  dartEntrypoint : List Char
  flavor : List Char
deriving DecidableEq, Repr

/-- Model of the save handler of `showProfileForm` (lines 994-1015): trim the fields,
require a non-empty name, reject a name that duplicates another existing
profile (renaming to one's own name is allowed). `none` models rejection
(error message shown, nothing returned) or cancellation. -/
def validateProfileForm (cfg : Config) (initialName : Option (List Char))
    (payload : FormPayload) : Option RunProfile :=
  let normalizedName := jsTrim payload.name
  let normalizedEntrypoint :=
    let t := jsTrim payload.dartEntrypoint
    if t = [] then str "lib/main.dart" else t
  let normalizedFlavor := jsTrim payload.flavor
  if normalizedName = [] then none
  else if some normalizedName ≠ initialName ∧
      normalizedName ∈ (getProfiles cfg.profiles).map (fun p => p.name) then none
  else some ⟨normalizedName, normalizedEntrypoint, normalizedFlavor⟩

/-- The `selectProfile` edit action (lines 360-393): pick the profile named
`targetName`, run the form, replace it in the listed profiles, reject a
rename that collides with another profile's name, and only then persist.
Returns the resulting configuration and whether a duplicate-name error was
raised. -/
def editProfile (cfg : Config) (targetName : List Char)
    (payload : FormPayload) : Config × Bool :=
  match (getProfiles cfg.profiles).find? (fun p => p.name = targetName) with
  | none => (cfg, false)
  | some target =>
    match validateProfileForm cfg (some target.name) payload with
    | none => (cfg, true)
    | some updated =>
      let profilesAfterEdit := (getProfiles cfg.profiles).map
        (fun item => if item.name = target.name then updated else item)
      if updated.name ≠ target.name ∧
          (profilesAfterEdit.filter (fun item => item.name = updated.name)).length > 1 then
        (cfg, true)
      else (saveProfiles cfg (profilesAfterEdit.map profileToRaw), false)

/-! ## Run-session state machine

The mutable module-level state of `src/extension.ts` relevant to the session
lifecycle. The spawned child process is a handle carrying its argument list,
liveness flags and the log of writes to its stdin; `openPreviewEvents` logs
each `simpleBrowser.show` side effect fired by `maybeOpenWebAppPreview`, and
`spawnCount` counts `spawn` calls. UI-only state (status-bar items) is not
modelled. Each event handler runs to completion atomically between events;
the micro-states inside `startFlutterRun` are exposed by `startTrace`. -/

structure ProcHandle where
  args : List (List Char)
  killed : Bool
  stdinDestroyed : Bool
  stdinWrites : List (List Char)
deriving DecidableEq, Repr

structure ExtState where
  config : Config
  runProcess : Option ProcHandle
  isRunStarting : Bool
  running : Bool
  latestDevToolsUrl : Option (List Char)
  latestWebAppUrl : Option (List Char)
  hasDevToolsUrl : Bool
  hasOpenedWebPreviewForRun : Bool
  currentRunIsWeb : Bool
  currentRunOpensInTab : Bool
  spawnCount : Nat
  openPreviewEvents : List (List Char)
deriving DecidableEq, Repr

def initState (cfg : Config) : ExtState :=
  ⟨cfg, none, false, false, none, none, false, false, false, false, 0, []⟩

/-- Model of `isWebDeviceId` (lines 1117-1120). -/
def isWebDeviceId (deviceId : List Char) : Bool :=
  let normalized := lowerStr (jsTrim deviceId)
  normalized = str "chrome" || normalized = str "edge" ||
    normalized = str "web-server" || (str "web-").isPrefixOf normalized

/-- The argument list built at lines 197-203: `["run"]`, push `-t
entrypoint`, push `-d runDeviceId`, push `--flavor flavor` when the flavor is
non-empty. -/
def buildArgs (entrypoint runDeviceId flavor : List Char) :
    List (List Char) :=
  let args := [str "run"]
  let args := args ++ [str "-t", entrypoint]
  let args := args ++ [str "-d", runDeviceId]
  if flavor.length > 0 then args ++ [str "--flavor", flavor] else args

/-- Model of `captureDevToolsUrl` (lines 798-815) per line: accept only lines with the
case-insensitive `devtools` marker whose first URL-shaped substring
validates. -/
def devtoolsLineUrl (line : List Char) : Option (List Char) :=
  if containsCI line (str "devtools") then
    match firstUrlMatch line with
    | some m => sanitizeUrl m
    | none => none
  else none

/-- One line of `captureDevToolsUrl`: an accepted line stores the canonical
URL and flips the has-DevTools-URL context signal. -/
def devtoolsStep (st : ExtState) (line : List Char) : ExtState :=
  match devtoolsLineUrl line with
  | some url => { st with latestDevToolsUrl := some url, hasDevToolsUrl := true }
  | none => st

def captureDevToolsUrl (st : ExtState) (chunk : List Char) : ExtState :=
  (splitLines chunk).foldl devtoolsStep st

/-- Per-candidate acceptance of the web-app URL scanner: the candidate
sanitizes and the canonical URL passes `isLocalWebUrl`. -/
def webUrlAccepted (candidate : List Char) : Bool :=
  match sanitizeUrl candidate with
  | some url => isLocalWebUrl url
  | none => false

/-- Model of `maybeOpenWebAppPreview` (lines 839-849): the one-shot preview guard. -/
def maybeOpenWebAppPreview (st : ExtState) (url : List Char) : ExtState :=
  if ¬(st.currentRunIsWeb = true ∧ st.currentRunOpensInTab = true) then st
  else if st.hasOpenedWebPreviewForRun then st
  else
    { st with
      hasOpenedWebPreviewForRun := true,
      openPreviewEvents := st.openPreviewEvents ++ [url] }

/-- The loop body of `captureWebAppUrl` (lines 822-836): first accepted match
wins, then the function returns. -/
def captureWebAppUrlGo (st : ExtState) : List (List Char) → ExtState
  | [] => st
  | m :: ms =>
    match sanitizeUrl m with
    | none => captureWebAppUrlGo st ms
    | some url =>
      if isLocalWebUrl url then
        maybeOpenWebAppPreview { st with latestWebAppUrl := some url } url
      else captureWebAppUrlGo st ms

/-- Model of `captureWebAppUrl` (lines 817-837): inactive unless the session is
web-targeted and tab-opening. -/
def captureWebAppUrl (st : ExtState) (chunk : List Char) : ExtState :=
  if st.currentRunIsWeb = true ∧ st.currentRunOpensInTab = true then
    captureWebAppUrlGo st (urlMatches chunk)
  else st

/-- A stdout/stderr data handler (lines 234-245): log, then both scanners. -/
def processData (st : ExtState) (chunk : List Char) : ExtState :=
  captureWebAppUrl (captureDevToolsUrl st chunk) chunk

/-- Per-start environment: what the awaited resolvers return. -/
structure StartEnv where
  folder : Option (List Char)
  device : Option (List Char)
deriving DecidableEq, Repr

/-- The `finally` block of `startFlutterRun` (lines 259-263). -/
def finishStart (st : ExtState) : ExtState := { st with isRunStarting := false }

/-- The state right after line 151 sets `isRunStarting = true`. -/
def startBegin (st : ExtState) : ExtState := { st with isRunStarting := true }

/-- The success path of `startFlutterRun` (lines 186-258): reset the
session-scoped fields, spawn, mark running, then the `finally`. -/
def startSuccessTrace (st : ExtState) (profile : RunProfile)
    (selectedDevice : List Char) (forceWebInTab : Bool) : List ExtState :=
  let selectedIsWeb := isWebDeviceId selectedDevice
  let runDeviceId := if forceWebInTab = true ∧ selectedIsWeb = true
    then str "web-server" else selectedDevice
  let entrypoint := normEntry (some profile.dartEntrypoint)
  let flavor := jsTrim profile.flavor
  let args := buildArgs entrypoint runDeviceId flavor
  let s1 := startBegin st
  let s2 : ExtState := { s1 with
    latestDevToolsUrl := none, latestWebAppUrl := none,
    hasOpenedWebPreviewForRun := false,
    currentRunIsWeb := selectedIsWeb,
    currentRunOpensInTab := forceWebInTab && selectedIsWeb,
    hasDevToolsUrl := false }
  let s3 : ExtState := { s2 with
    runProcess := some ⟨args, false, false, []⟩,
    spawnCount := s2.spawnCount + 1 }
  let s4 : ExtState := { s3 with running := true }
  [s1, s2, s3, s4, finishStart s4]

/-- The states `startFlutterRun` (lines 147-264) passes through, in order,
starting with the state right after `isRunStarting = true` is set: the
guard-abort branches (no project folder, no profile, no device, tab mode on
a non-web device) jump to the `finally`; the success path continues through
`startSuccessTrace`. The code reads the configuration after setting the
flag, which the flag does not affect. -/
def startTrace (st : ExtState) (env : StartEnv) (forceWebInTab : Bool) :
    List ExtState :=
  match env.folder with
  | none => [startBegin st, finishStart (startBegin st)]
  | some _ =>
    match getActiveProfile st.config with
    | none => [startBegin st, finishStart (startBegin st)]
    | some profile =>
      match env.device with
      | none => [startBegin st, finishStart (startBegin st)]
      | some selectedDevice =>
        if forceWebInTab = true ∧ ¬isWebDeviceId selectedDevice = true then
          [startBegin st, finishStart (startBegin st)]
        else
          startSuccessTrace st profile selectedDevice forceWebInTab

def startFlutterRun (st : ExtState) (env : StartEnv)
    (forceWebInTab : Bool) : ExtState :=
  (startTrace st env forceWebInTab).getLastD st

/-- Model of `stopRun` (lines 266-280): kill and clear the handle, reset all
session-scoped state. -/
def stopRun (st : ExtState) : ExtState :=
  { st with
    runProcess := none, latestDevToolsUrl := none,
    latestWebAppUrl := none, hasOpenedWebPreviewForRun := false,
    currentRunIsWeb := false, currentRunOpensInTab := false,
    hasDevToolsUrl := false, running := false }

/-- Guard of the hot-reload/restart writers: the handle was not killed and
its stdin stream is usable. -/
def procAlive (p : ProcHandle) : Bool := !p.killed && !p.stdinDestroyed

/-- Model of `triggerHotRestart` (lines 785-796): write `R\n` to an alive process's
stdin, else only warn. -/
def triggerHotRestart (st : ExtState) : ExtState :=
  match st.runProcess with
  | some p =>
    if procAlive p then
      { st with runProcess := some { p with
        stdinWrites := p.stdinWrites ++ [str "R\n"] } }
    else st
  | none => st

/-- Model of `triggerHotReload` (lines 773-783): write `r\n` to an alive process's
stdin, else only warn. -/
def triggerHotReload (st : ExtState) : ExtState :=
  match st.runProcess with
  | some p =>
    if procAlive p then
      { st with runProcess := some { p with
        stdinWrites := p.stdinWrites ++ [str "r\n"] } }
    else st
  | none => st

/-- Model of `runFlutter` (lines 119-131): warn while starting, hot-restart when a
process exists, otherwise start. -/
def runFlutter (st : ExtState) (env : StartEnv) : ExtState :=
  if st.isRunStarting then st
  else
    match st.runProcess with
    | some _ => triggerHotRestart st
    | none => startFlutterRun st env false

/-- Model of `runFlutterWebInTab` (lines 133-145): warn while starting or while a
process exists, otherwise start in forced web-tab mode. -/
def runFlutterWebInTab (st : ExtState) (env : StartEnv) : ExtState :=
  if st.isRunStarting then st
  else
    match st.runProcess with
    | some _ => st
    | none => startFlutterRun st env true

/-- The events the host can deliver between which the handlers run
atomically: commands, process stream data, process error/exit (both of which
tear the session down), the external death of the process's stdin, and a
configuration change. -/
inductive Ev where
  | run (env : StartEnv)
  | runWebTab (env : StartEnv)
  | stop
  | hotReload
  | data (chunk : List Char)
  | procError
  | procClose
  | stdinClosed
  | setConfig (cfg : Config)

def stepEv (st : ExtState) : Ev → ExtState
  | .run env => runFlutter st env
  | .runWebTab env => runFlutterWebInTab st env
  | .stop => stopRun st
  | .hotReload => triggerHotReload st
  | .data chunk => processData st chunk
  | .procError => stopRun st
  | .procClose => stopRun st
  | .stdinClosed =>
    match st.runProcess with
    | some p => { st with runProcess := some { p with stdinDestroyed := true } }
    | none => st
  | .setConfig cfg => { st with config := cfg }

/-- States reachable at quiescence, i.e. between completed event handlers. -/
inductive Reachable : ExtState → Prop where
  | init (cfg : Config) : Reachable (initState cfg)
  | step {st : ExtState} (ev : Ev) : Reachable st → Reachable (stepEv st ev)

/-- A reachable *point* of execution: a quiescent state, or one of the
micro-states `startFlutterRun` passes through when entered from `runFlutter`
on a quiescent state (observable because the body awaits between its
mutations). -/
inductive ReachablePoint : ExtState → Prop where
  | quiescent {st : ExtState} : Reachable st → ReachablePoint st
  | mid {st0 st : ExtState} (env : StartEnv) : Reachable st0 →
      st0.isRunStarting = false → st0.runProcess = none →
      st ∈ startTrace st0 env false → ReachablePoint st

/-! ## Manifest detection (`isFlutterProject`)

`hasTopLevelFlutterSection` tests each line against `/^flutter\s*:/`;
`hasFlutterSdkDependency` tests the whole content against two `/im` regexes.
The regexes are modelled by nondeterministic matchers with existence
semantics (a state is the last consumed character, for `\b`, plus the
remaining input); `test()` asks whether any start position (string start or
just after a newline, covering both the `(^|\n)` group and the `m` flag)
admits a match. -/

def isWordChar (c : Char) : Bool := c.isAlphanum || c = '_'

/-- A matcher state: last consumed character (for word boundaries) and the
remaining input. -/
abbrev RState := Option Char × List Char

/-- A nondeterministic regex fragment: all states after consuming a match. -/
abbrev RMatcher := RState → List RState

def mEps : RMatcher := fun st => [st]

def mSeq (p q : RMatcher) : RMatcher := fun st => (p st).flatMap q

def mAlt (p q : RMatcher) : RMatcher := fun st => p st ++ q st

def mChar (f : Char → Bool) : RMatcher := fun st =>
  match st.2 with
  | c :: r => if f c then [(some c, r)] else []
  | [] => []

def mLit (c : Char) : RMatcher := mChar (fun d => d = c)

def mLitCI (c : Char) : RMatcher := mChar (fun d => lowerChar d = lowerChar c)

def mStrCI (s : List Char) : RMatcher :=
  s.foldr (fun c acc => mSeq (mLitCI c) acc) mEps

def mManyAux (f : Char → Bool) : Option Char → List Char → List RState
  | pv, [] => [(pv, [])]
  | pv, c :: r => (pv, c :: r) :: (if f c then mManyAux f (some c) r else [])

/-- Greedy-or-lazy star over a character class, as the set of all stop
positions. -/
def mMany (f : Char → Bool) : RMatcher := fun st => mManyAux f st.1 st.2

def mOpt (p : RMatcher) : RMatcher := mAlt mEps p

/-- Boundary `\b`: exactly one side of the position is a word character. -/
def mBoundary : RMatcher := fun st =>
  let lw := match st.1 with
    | some c => isWordChar c
    | none => false
  let rw := match st.2 with
    | c :: _ => isWordChar c
    | [] => false
  if lw ≠ rw then [st] else []

/-- Bounded iteration for a star whose body consumes at least one character:
with fuel the input length, all match counts are covered. -/
def mStarFuel (p : RMatcher) : Nat → RMatcher
  | 0 => mEps
  | n + 1 => mAlt mEps (mSeq p (mStarFuel p n))

def newlineStates : List Char → List RState
  | [] => []
  | c :: r => (if c = '\n' then [((some '\n' : Option Char), r)] else []) ++
      newlineStates r

/-- Start positions of `(^|\n)` under the `m` flag: the string start, and
just after every newline. -/
def startStates (l : List Char) : List RState := (none, l) :: newlineStates l

def regexTest (m : RMatcher) (content : List Char) : Bool :=
  (startStates content).any (fun st => !(m st).isEmpty)

def mWs : RMatcher := mMany isJsWs

def mDepName : RMatcher :=
  mAlt (mStrCI (str "flutter")) (mStrCI (str "flutter_web_plugins"))

def notBraceNl (c : Char) : Bool := !(c = '}') && !(c = '\n')

/-- Fragment `sdk\s*:\s*flutter\b`, case-insensitively (`/i`). -/
def mSdkColonFlutter : RMatcher :=
  mSeq (mStrCI (str "sdk")) (mSeq mWs (mSeq (mLit ':') (mSeq mWs
    (mSeq (mStrCI (str "flutter")) mBoundary))))

/-- Fragment matching the inline-brace form of the dependency value. -/
def mInlineBrace : RMatcher :=
  mSeq (mLit '{') (mSeq (mMany notBraceNl) (mSeq mBoundary
    (mSeq mSdkColonFlutter (mSeq (mMany notBraceNl) (mLit '}')))))

/-- The inline dependency pattern after the `(^|\n)` anchor. -/
def mInlinePat : RMatcher :=
  mSeq mWs (mSeq mDepName (mSeq mWs (mSeq (mLit ':')
    (mSeq mWs (mAlt mInlineBrace mSdkColonFlutter)))))

def isSpTab (c : Char) : Bool := c = ' ' || c = '\t'

/-- Dot without the `s` flag: anything except a line terminator. -/
def notNlCr (c : Char) : Bool := !(c = '\n') && !(c = '\r')

def mCRLF : RMatcher := mSeq (mOpt (mLit '\r')) (mLit '\n')

/-- Fragment `[ \t]+.*(?:\r?\n)`: one indented line. -/
def mBlockLine : RMatcher :=
  mSeq (mChar isSpTab) (mSeq (mMany isSpTab) (mSeq (mMany notNlCr) mCRLF))

/-- Fragment matching the final indented `sdk: flutter` line. -/
def mBlockSdk : RMatcher :=
  mSeq (mChar isSpTab) (mSeq (mMany isSpTab) mSdkColonFlutter)

/-- The block dependency pattern after the `(^|\n)` anchor, with iteration
fuel for the inner line star. -/
def mBlockPat (fuel : Nat) : RMatcher :=
  mSeq mWs (mSeq mDepName (mSeq mWs (mSeq (mLit ':') (mSeq mWs
    (mSeq mCRLF (mSeq (mStarFuel mBlockLine fuel) mBlockSdk))))))

/-- Model of `hasFlutterSdkDependency` (lines 555-565): either of the two `/im`
regexes matches the content. -/
def hasFlutterSdkDependency (content : List Char) : Bool :=
  regexTest mInlinePat content || regexTest (mBlockPat content.length) content

/-- Model of `line.match` against the top-level pattern (lines 551-553): the line starts with
`flutter`, then whitespace, then `:`. -/
def lineHasTopFlutter (line : List Char) : Bool :=
  (str "flutter").isPrefixOf line &&
    (match (line.drop 7).dropWhile isJsWs with
     | ':' :: _ => true
     | _ => false)

def hasTopLevelFlutterSection (lines : List (List Char)) : Bool :=
  lines.any lineHasTopFlutter

/-- The pure core of `isFlutterProject` (lines 535-549), applied to the
manifest file content (the file read and its failure path are host I/O). -/
def isFlutterProject (content : List Char) : Bool :=
  hasTopLevelFlutterSection (splitLines content) || hasFlutterSdkDependency content

/-! ## Supporting lemmas about the classifier and the session state machine -/

/-- The DevTools scanner over a chunk: its whole effect is determined by the
last accepted line, and nothing changes when no line is accepted. -/
theorem foldl_devtoolsStep (lines : List (List Char)) (st : ExtState) :
    lines.foldl devtoolsStep st =
      match (lines.filterMap devtoolsLineUrl).getLast? with
      | some url =>
        { st with latestDevToolsUrl := some url, hasDevToolsUrl := true }
      | none => st := by
  induction lines generalizing st with
  | nil => simp
  | cons line rest ih =>
    rw [List.foldl_cons, ih]
    cases hl : devtoolsLineUrl line with
    | none => simp [devtoolsStep, hl, List.filterMap_cons]
    | some url =>
      simp only [devtoolsStep, hl, List.filterMap_cons]
      cases hrest : (rest.filterMap devtoolsLineUrl).getLast? with
      | none =>
        have : rest.filterMap devtoolsLineUrl = [] :=
          List.getLast?_eq_none_iff.mp hrest
        rw [this]
        rfl
      | some url2 =>
        have hne : rest.filterMap devtoolsLineUrl ≠ [] := by
          intro he
          rw [he] at hrest
          simp at hrest
        cases he : rest.filterMap devtoolsLineUrl with
        | nil => exact absurd he hne
        | cons x xs =>
          rw [he] at hrest
          rw [List.getLast?_cons_cons, hrest]

theorem captureDevToolsUrl_spec (st : ExtState) (chunk : List Char) :
    captureDevToolsUrl st chunk =
      match ((splitLines chunk).filterMap devtoolsLineUrl).getLast? with
      | some url =>
        { st with latestDevToolsUrl := some url, hasDevToolsUrl := true }
      | none => st :=
  foldl_devtoolsStep (splitLines chunk) st

/-- The one-shot invariant of the web preview: the number of fired preview
side effects is bounded by the latch. -/
def openInv (st : ExtState) : Prop :=
  st.openPreviewEvents.length ≤ (if st.hasOpenedWebPreviewForRun then 1 else 0)

theorem maybeOpenWebAppPreview_inv {st : ExtState} (url : List Char)
    (h : openInv st) : openInv (maybeOpenWebAppPreview st url) := by
  unfold maybeOpenWebAppPreview
  split
  · exact h
  · split
    · exact h
    · next hflag =>
      have h0 : st.openPreviewEvents.length ≤ 0 := by
        unfold openInv at h
        rw [Bool.not_eq_true] at hflag
        rw [hflag] at h
        simpa using h
      unfold openInv
      show (st.openPreviewEvents ++ [url]).length ≤ if true then 1 else 0
      rw [List.length_append]
      simp only [List.length_singleton, if_pos trivial]
      omega

theorem captureWebAppUrlGo_inv {st : ExtState} (ms : List (List Char))
    (h : openInv st) : openInv (captureWebAppUrlGo st ms) := by
  induction ms with
  | nil => exact h
  | cons m rest ih =>
    have hstep : captureWebAppUrlGo st (m :: rest) =
        match sanitizeUrl m with
        | none => captureWebAppUrlGo st rest
        | some url =>
          if isLocalWebUrl url then
            maybeOpenWebAppPreview { st with latestWebAppUrl := some url } url
          else captureWebAppUrlGo st rest := rfl
    rw [hstep]
    cases sanitizeUrl m with
    | none => exact ih
    | some url =>
      by_cases hloc : isLocalWebUrl url = true
      · simp only [hloc, if_pos trivial]
        exact maybeOpenWebAppPreview_inv url h
      · simp only [if_neg hloc]
        exact ih

theorem captureWebAppUrl_inv {st : ExtState} (chunk : List Char)
    (h : openInv st) : openInv (captureWebAppUrl st chunk) := by
  unfold captureWebAppUrl
  split
  · exact captureWebAppUrlGo_inv _ h
  · exact h

theorem captureDevToolsUrl_inv {st : ExtState} (chunk : List Char)
    (h : openInv st) : openInv (captureDevToolsUrl st chunk) := by
  rw [captureDevToolsUrl_spec]
  split
  · exact h
  · exact h

theorem processData_inv {st : ExtState} (chunk : List Char)
    (h : openInv st) : openInv (processData st chunk) :=
  captureWebAppUrl_inv chunk (captureDevToolsUrl_inv chunk h)

/-- The final state of `startFlutterRun` always has `isRunStarting = false`:
the `finally` block runs on every path. -/
theorem startFlutterRun_not_starting (st : ExtState) (env : StartEnv)
    (force : Bool) :
    (startFlutterRun st env force).isRunStarting = false := by
  unfold startFlutterRun startTrace
  repeat' split
  all_goals rfl

/-- Lemma: `maybeOpenWebAppPreview` only ever touches the one-shot latch and the
preview side-effect log. -/
theorem maybeOpen_shape (s : ExtState) (url : List Char) :
    ∃ flag ev, maybeOpenWebAppPreview s url =
      { s with hasOpenedWebPreviewForRun := flag, openPreviewEvents := ev } := by
  unfold maybeOpenWebAppPreview
  by_cases h1 : ¬(s.currentRunIsWeb = true ∧ s.currentRunOpensInTab = true)
  · rw [if_pos h1]
    exact ⟨s.hasOpenedWebPreviewForRun, s.openPreviewEvents, rfl⟩
  · rw [if_neg h1]
    by_cases h2 : s.hasOpenedWebPreviewForRun = true
    · rw [if_pos h2]
      exact ⟨s.hasOpenedWebPreviewForRun, s.openPreviewEvents, rfl⟩
    · rw [if_neg h2]
      exact ⟨true, s.openPreviewEvents ++ [url], rfl⟩

/-- The web-app URL scanner loop only ever touches the web-app URL, the
one-shot latch and the preview side-effect log. -/
theorem captureWebAppUrlGo_shape (s : ExtState) (ms : List (List Char)) :
    ∃ u flag ev, captureWebAppUrlGo s ms =
      { s with
        latestWebAppUrl := u, hasOpenedWebPreviewForRun := flag,
        openPreviewEvents := ev } := by
  induction ms generalizing s with
  | nil =>
    exact ⟨s.latestWebAppUrl, s.hasOpenedWebPreviewForRun,
      s.openPreviewEvents, rfl⟩
  | cons m rest ih =>
    have hstep : captureWebAppUrlGo s (m :: rest) =
        match sanitizeUrl m with
        | none => captureWebAppUrlGo s rest
        | some url =>
          if isLocalWebUrl url then
            maybeOpenWebAppPreview { s with latestWebAppUrl := some url } url
          else captureWebAppUrlGo s rest := rfl
    rw [hstep]
    cases sanitizeUrl m with
    | none => exact ih s
    | some url =>
      by_cases hloc : isLocalWebUrl url = true
      · simp only [hloc, if_pos trivial]
        obtain ⟨flag, ev, heq⟩ :=
          maybeOpen_shape { s with latestWebAppUrl := some url } url
        exact ⟨some url, flag, ev, heq⟩
      · simp only [if_neg hloc]
        exact ih s

/-- Lemma: `captureWebAppUrl` only ever touches the web-app URL, the one-shot latch
and the preview side-effect log. -/
theorem captureWebAppUrl_shape (s : ExtState) (chunk : List Char) :
    ∃ u flag ev, captureWebAppUrl s chunk =
      { s with
        latestWebAppUrl := u, hasOpenedWebPreviewForRun := flag,
        openPreviewEvents := ev } := by
  unfold captureWebAppUrl
  by_cases hweb : s.currentRunIsWeb = true ∧ s.currentRunOpensInTab = true
  · rw [if_pos hweb]
    exact captureWebAppUrlGo_shape s (urlMatches chunk)
  · rw [if_neg hweb]
    exact ⟨s.latestWebAppUrl, s.hasOpenedWebPreviewForRun,
      s.openPreviewEvents, rfl⟩

/-- A data event only ever touches the five classifier outputs: the two
captured URLs, the DevTools signal, the one-shot latch and the preview log. -/
theorem processData_shape (s : ExtState) (chunk : List Char) :
    ∃ d hd u flag ev, processData s chunk =
      { s with
        latestDevToolsUrl := d, hasDevToolsUrl := hd,
        latestWebAppUrl := u, hasOpenedWebPreviewForRun := flag,
        openPreviewEvents := ev } := by
  unfold processData
  have hdev : ∃ d hd, captureDevToolsUrl s chunk =
      { s with latestDevToolsUrl := d, hasDevToolsUrl := hd } := by
    rw [captureDevToolsUrl_spec]
    cases ((splitLines chunk).filterMap devtoolsLineUrl).getLast? with
    | some url => exact ⟨some url, true, rfl⟩
    | none => exact ⟨s.latestDevToolsUrl, s.hasDevToolsUrl, rfl⟩
  obtain ⟨d, hd, heqdev⟩ := hdev
  rw [heqdev]
  obtain ⟨u, flag, ev, heqweb⟩ := captureWebAppUrl_shape
    { s with latestDevToolsUrl := d, hasDevToolsUrl := hd } chunk
  rw [heqweb]
  exact ⟨d, hd, u, flag, ev, rfl⟩

/-- The starting flag is always false at quiescence. -/
theorem reachable_not_starting {st : ExtState} (h : Reachable st) :
    st.isRunStarting = false := by
  induction h with
  | init cfg => rfl
  | step ev hprev ih =>
    rename_i st
    cases ev with
    | run env =>
      simp only [stepEv, runFlutter]
      rw [if_neg (by rw [ih]; exact Bool.false_ne_true)]
      cases hrp : st.runProcess with
      | some p =>
        simp only [triggerHotRestart, hrp]
        by_cases ha : procAlive p = true
        · rw [if_pos ha]
          exact ih
        · rw [if_neg ha]
          exact ih
      | none => exact startFlutterRun_not_starting st env false
    | runWebTab env =>
      simp only [stepEv, runFlutterWebInTab]
      rw [if_neg (by rw [ih]; exact Bool.false_ne_true)]
      cases hrp : st.runProcess with
      | some p => exact ih
      | none => exact startFlutterRun_not_starting st env true
    | stop => exact ih
    | hotReload =>
      cases hrp : st.runProcess with
      | some p =>
        simp only [stepEv, triggerHotReload, hrp]
        by_cases ha : procAlive p = true
        · rw [if_pos ha]
          exact ih
        · rw [if_neg ha]
          exact ih
      | none =>
        simp only [stepEv, triggerHotReload, hrp]
        exact ih
    | data chunk =>
      obtain ⟨d, hd, u, flag, ev, heq⟩ := processData_shape st chunk
      show (processData st chunk).isRunStarting = false
      rw [heq]
      exact ih
    | procError => exact ih
    | procClose => exact ih
    | stdinClosed =>
      simp only [stepEv]
      cases hrp : st.runProcess with
      | some p => exact ih
      | none => exact ih
    | setConfig cfg => exact ih

/-! ## Claim-side predicates and concrete material -/

/-- Claim side of C4 as amended: the candidate parses as an absolute `http`
URL whose host is a loopback host. -/
def claimHttpLoopback (cand : List Char) : Bool :=
  match parseUrl cand with
  | some u => u.secure = false && isLoopbackHost u.host
  | none => false

/-- Claim side of C4 as written: the candidate parses as an absolute
`http`/`https` URL whose host is a loopback host. -/
def claimHttpOrHttpsLoopback (cand : List Char) : Bool :=
  match parseUrl cand with
  | some u => isLoopbackHost u.host
  | none => false

theorem webUrlAccepted_eq (cand : List Char) :
    webUrlAccepted cand = claimHttpLoopback cand := by
  unfold webUrlAccepted claimHttpLoopback sanitizeUrl
  cases hp : parseUrl cand with
  | none => rfl
  | some u =>
    show (match (if u.secure = true ∨ u.secure = false
        then some (urlToString u) else none) with
      | some url => isLocalWebUrl url
      | none => false) = (decide (u.secure = false) && isLoopbackHost u.host)
    rw [if_pos (by
      cases hu : u.secure with
      | true => exact Or.inl rfl
      | false => exact Or.inr rfl)]
    show isLocalWebUrl (urlToString u) =
      (decide (u.secure = false) && isLoopbackHost u.host)
    unfold isLocalWebUrl
    rw [parseUrl_urlToString (parseUrl_wf hp)]

theorem foldl_processData_inv (chunks : List (List Char)) (st : ExtState)
    (h : openInv st) : openInv (chunks.foldl processData st) := by
  induction chunks generalizing st with
  | nil => exact h
  | cons chunk rest ih =>
    rw [List.foldl_cons]
    exact ih _ (processData_inv chunk h)

def cfgW : Config := ⟨[], str "default", true⟩

def envW : StartEnv := ⟨some (str "/app"), some (str "pixel-7")⟩

def stW1 : ExtState := stepEv (initState cfgW) (Ev.run envW)

/-! ## The claims -/

/-- C1: in every reachable state where a session is active (a live process
handle exists), invoking the "run" operation writes the restart directive
`R\n` to the existing process's input stream, and creates no new process
handle: the spawn count is unchanged and the stored handle is the same one
with the write appended. -/
theorem C1_run_restarts_active_session (st : ExtState) (env : StartEnv)
    (p : ProcHandle) (hreach : Reachable st) (hp : st.runProcess = some p)
    (halive : procAlive p = true) :
    (runFlutter st env).runProcess =
      some { p with stdinWrites := p.stdinWrites ++ [str "R\n"] } ∧
    (runFlutter st env).spawnCount = st.spawnCount := by
  have hns := reachable_not_starting hreach
  unfold runFlutter
  rw [if_neg (by rw [hns]; exact Bool.false_ne_true)]
  simp only [hp, triggerHotRestart]
  rw [if_pos halive]
  exact ⟨rfl, rfl⟩

theorem C1_witness :
    (runFlutter stW1 envW).runProcess = some
      ⟨[str "run", str "-t", str "lib/main.dart", str "-d", str "pixel-7"],
        false, false, [str "R\n"]⟩ ∧
    (runFlutter stW1 envW).spawnCount = stW1.spawnCount :=
  C1_run_restarts_active_session stW1 envW
    ⟨[str "run", str "-t", str "lib/main.dart", str "-d", str "pixel-7"],
      false, false, []⟩
    (Reachable.step (Ev.run envW) (Reachable.init cfgW)) rfl rfl

/-- C2 counterexample: a reachable point of execution — the state inside
`startFlutterRun` right after `setRunningState(true)` (line 232), before
the `finally` clears the starting flag (line 260) — has the starting flag
and the running flag simultaneously true, refuting the claimed mutual
exclusion over time. -/
theorem C2_counterexample :
    ReachablePoint ((startTrace (initState cfgW) envW false).getD 3
      (initState cfgW)) ∧
    ((startTrace (initState cfgW) envW false).getD 3
      (initState cfgW)).isRunStarting = true ∧
    ((startTrace (initState cfgW) envW false).getD 3
      (initState cfgW)).running = true := by
  refine ⟨?_, rfl, rfl⟩
  exact ReachablePoint.mid envW (Reachable.init cfgW) rfl rfl (by decide)

/-- C2 as amended: at every quiescent state (between completed event
handlers) the starting flag and the running flag are not simultaneously
true — starting is set before running and the `finally` of the start
operation clears it — but within the start operation itself the two flags do
overlap (see the counterexample). -/
theorem C2_flags_exclusive_at_quiescence (st : ExtState)
    (h : Reachable st) : ¬(st.isRunStarting = true ∧ st.running = true) := by
  intro hcontra
  rw [reachable_not_starting h] at hcontra
  exact Bool.false_ne_true hcontra.1

theorem C2_witness :
    ¬((initState cfgW).isRunStarting = true ∧
      (initState cfgW).running = true) :=
  C2_flags_exclusive_at_quiescence (initState cfgW) (Reachable.init cfgW)

/-- C3: on the success path of start, the spawned process's argument list is
a pure function of (entrypoint, effective device id, flavor): exactly
`["run", "-t", entrypoint, "-d", effectiveDeviceId]` when the trimmed flavor
is empty, with `["--flavor", flavor]` appended otherwise, in that fixed
order; the effective device id is the literal `web-server` when the forced
web-tab mode is requested and the selected device is web-class, and the
selected device id verbatim otherwise. -/
theorem C3_args_pure_function (st : ExtState) (folder dev : List Char)
    (profile : RunProfile) (force : Bool)
    (hprofile : getActiveProfile st.config = some profile)
    (hok : ¬(force = true ∧ ¬isWebDeviceId dev = true)) :
    (startFlutterRun st ⟨some folder, some dev⟩ force).runProcess =
      some ⟨[str "run", str "-t", normEntry (some profile.dartEntrypoint),
        str "-d",
        if force = true ∧ isWebDeviceId dev = true then str "web-server"
        else dev] ++
        (if jsTrim profile.flavor = [] then []
         else [str "--flavor", jsTrim profile.flavor]),
        false, false, []⟩ := by
  unfold startFlutterRun startTrace
  simp only [hprofile]
  rw [if_neg hok]
  unfold startSuccessTrace buildArgs
  simp only []
  by_cases hf : jsTrim profile.flavor = []
  · rw [if_pos hf]
    rw [if_neg (by rw [hf]; simp)]
    rfl
  · rw [if_neg hf]
    rw [if_pos (List.length_pos.mpr hf)]
    rfl

theorem C3_witness :
    (startFlutterRun (initState cfgW) ⟨some (str "/app"),
        some (str "pixel-7")⟩ false).runProcess =
      some ⟨[str "run", str "-t",
        normEntry (some (⟨str "default", str "lib/main.dart",
          []⟩ : RunProfile).dartEntrypoint), str "-d",
        if false = true ∧ isWebDeviceId (str "pixel-7") = true
        then str "web-server" else str "pixel-7"] ++
        (if jsTrim (⟨str "default", str "lib/main.dart",
            []⟩ : RunProfile).flavor = [] then []
         else [str "--flavor", jsTrim (⟨str "default", str "lib/main.dart",
           []⟩ : RunProfile).flavor]),
        false, false, []⟩ :=
  C3_args_pure_function (initState cfgW) (str "/app") (str "pixel-7")
    ⟨str "default", str "lib/main.dart", []⟩ false rfl (by decide)

def c4cand : List Char := str "https://127.0.0.1:8080/app"

def c4state : ExtState :=
  { initState cfgW with currentRunIsWeb := true, currentRunOpensInTab := true }

/-- C4 counterexample: `https://127.0.0.1:8080/app` parses as an absolute
`http`/`https` URL whose host is a loopback host, yet the web-app URL
scanner rejects it (`isLocalWebUrl` demands the protocol be exactly
`http:`), so the claimed "if and only if" fails; on a chunk consisting of
this URL the active scanner stores nothing and fires no preview. -/
theorem C4_counterexample :
    claimHttpOrHttpsLoopback c4cand = true ∧
    webUrlAccepted c4cand = false ∧
    (captureWebAppUrl c4state c4cand).latestWebAppUrl = none ∧
    (captureWebAppUrl c4state c4cand).openPreviewEvents = [] := by
  refine ⟨rfl, rfl, rfl, rfl⟩

/-- C4 as amended: the web-app URL scanner accepts a URL substring if and
only if it parses as an absolute `http` (not `https`) URL whose host is a
loopback host (`127.0.0.1`, `localhost`, or the IPv6 loopback literal); and
the one-shot open-preview side effect fires at most once per session
regardless of how many accepted loopback URLs appear across subsequent
chunks. -/
theorem C4_web_scanner_amended :
    (∀ cand : List Char, webUrlAccepted cand = claimHttpLoopback cand) ∧
    (∀ (st : ExtState) (chunks : List (List Char)),
      st.hasOpenedWebPreviewForRun = false → st.openPreviewEvents = [] →
      ((chunks.foldl processData st).openPreviewEvents).length ≤ 1) := by
  constructor
  · exact webUrlAccepted_eq
  · intro st chunks hflag hev
    have hinv : openInv st := by
      unfold openInv
      rw [hflag, hev]
      simp
    have hfinal := foldl_processData_inv chunks st hinv
    unfold openInv at hfinal
    split at hfinal
    · exact hfinal
    · omega

theorem C4_witness :
    webUrlAccepted (str "http://127.0.0.1:8080/app") =
      claimHttpLoopback (str "http://127.0.0.1:8080/app") ∧
    (c4state.hasOpenedWebPreviewForRun = false ∧
      c4state.openPreviewEvents = []) ∧
    ((([str "x http://127.0.0.1:1/a", str "y http://127.0.0.1:2/b",
        str "z http://localhost:3/c"]).foldl processData
        c4state).openPreviewEvents).length ≤ 1 :=
  ⟨C4_web_scanner_amended.1 (str "http://127.0.0.1:8080/app"),
    ⟨rfl, rfl⟩,
    C4_web_scanner_amended.2 c4state
      [str "x http://127.0.0.1:1/a", str "y http://127.0.0.1:2/b",
        str "z http://localhost:3/c"] rfl rfl⟩

theorem getProfiles_ne_nil (persisted : List RawProfile) :
    getProfiles persisted ≠ [] := by
  simp only [getProfiles]
  split
  · next h =>
    intro he
    rw [he] at h
    simp at h
  · simp

/-- C5: the DevTools URL scanner accepts from a line only if that line
contains the substring `devtools` case-insensitively and contains an
`http`/`https` URL substring that passes URL validation (the accepted URL is
the validated first match); on acceptance the canonicalized URL is stored
and the has-DevTools-URL indicator flips to true; and a chunk whose URL
matches all appear on lines without the `devtools` marker yields no
acceptance (the state is unchanged). -/
theorem C5_devtools_scanner :
    (∀ line url, devtoolsLineUrl line = some url →
      containsCI line (str "devtools") = true ∧
      ∃ m, firstUrlMatch line = some m ∧ sanitizeUrl m = some url) ∧
    (∀ (st : ExtState) (chunk : List Char),
      (∃ line ∈ splitLines chunk, devtoolsLineUrl line ≠ none) →
      (captureDevToolsUrl st chunk).hasDevToolsUrl = true ∧
      ∃ url, (captureDevToolsUrl st chunk).latestDevToolsUrl = some url ∧
        ∃ line ∈ splitLines chunk, devtoolsLineUrl line = some url) ∧
    (∀ (st : ExtState) (chunk : List Char),
      (∀ line ∈ splitLines chunk, firstUrlMatch line ≠ none →
        containsCI line (str "devtools") = false) →
      captureDevToolsUrl st chunk = st) := by
  refine ⟨?_, ?_, ?_⟩
  · intro line url h
    unfold devtoolsLineUrl at h
    split at h
    · next hmarker =>
      refine ⟨hmarker, ?_⟩
      cases hm : firstUrlMatch line with
      | none =>
        rw [hm] at h
        exact absurd h (by simp)
      | some m =>
        rw [hm] at h
        exact ⟨m, rfl, h⟩
    · exact absurd h (by simp)
  · intro st chunk hex
    have hne : (splitLines chunk).filterMap devtoolsLineUrl ≠ [] := by
      intro he
      obtain ⟨line, hline, hsome⟩ := hex
      exact hsome ((List.filterMap_eq_nil_iff.mp he) line hline)
    cases hlast : ((splitLines chunk).filterMap devtoolsLineUrl).getLast? with
    | none => exact absurd (List.getLast?_eq_none_iff.mp hlast) hne
    | some url =>
      rw [captureDevToolsUrl_spec, hlast]
      refine ⟨rfl, url, rfl, ?_⟩
      have hmem : url ∈ (splitLines chunk).filterMap devtoolsLineUrl :=
        List.mem_of_getLast?_eq_some hlast
      obtain ⟨line, hline, heq⟩ := List.mem_filterMap.mp hmem
      exact ⟨line, hline, heq⟩
  · intro st chunk hall
    rw [captureDevToolsUrl_spec]
    have hnil : (splitLines chunk).filterMap devtoolsLineUrl = [] := by
      rw [List.filterMap_eq_nil_iff]
      intro line hline
      unfold devtoolsLineUrl
      split
      · next hmarker =>
        cases hm : firstUrlMatch line with
        | none => rfl
        | some m =>
          have := hall line hline (by rw [hm]; simp)
          rw [this] at hmarker
          exact absurd hmarker (by simp)
      · rfl
    rw [hnil]
    rfl

def devLine1 : List Char :=
  str "Flutter DevTools debugger at: http://127.0.0.1:9100?uri=abc"

def plainChunk : List Char :=
  str "A Dart VM Service is available at: http://127.0.0.1:52090/x/\n"

theorem C5_witness :
    (containsCI devLine1 (str "devtools") = true ∧
      ∃ m, firstUrlMatch devLine1 = some m ∧
        sanitizeUrl m = some (str "http://127.0.0.1:9100/?uri=abc")) ∧
    ((captureDevToolsUrl (initState cfgW) devLine1).hasDevToolsUrl = true ∧
      ∃ url, (captureDevToolsUrl (initState cfgW)
          devLine1).latestDevToolsUrl = some url ∧
        ∃ line ∈ splitLines devLine1, devtoolsLineUrl line = some url) ∧
    captureDevToolsUrl (initState cfgW) plainChunk = initState cfgW :=
  ⟨C5_devtools_scanner.1 devLine1 (str "http://127.0.0.1:9100/?uri=abc") rfl,
    C5_devtools_scanner.2.1 (initState cfgW) devLine1
      ⟨devLine1, by decide, by decide⟩,
    C5_devtools_scanner.2.2 (initState cfgW) plainChunk (by decide)⟩

/-- C6: `getActiveProfile` with a configured active name that names a listed
profile returns exactly that profile (the first listed profile with that
name); with an active name matching no listed profile it returns the first
listed profile. -/
theorem C6_get_active_profile (cfg : Config) :
    ((∃ p ∈ getProfiles cfg.profiles, p.name = cfg.activeProfile) →
      ∃ p, getActiveProfile cfg = some p ∧ p.name = cfg.activeProfile ∧
        (getProfiles cfg.profiles).find?
          (fun q => q.name = cfg.activeProfile) = some p) ∧
    ((∀ p ∈ getProfiles cfg.profiles, p.name ≠ cfg.activeProfile) →
      ∃ q, getActiveProfile cfg = some q ∧
        (getProfiles cfg.profiles).head? = some q) := by
  constructor
  · intro hex
    cases hf : (getProfiles cfg.profiles).find?
        (fun q => q.name = cfg.activeProfile) with
    | none =>
      obtain ⟨p, hp, hpname⟩ := hex
      have := List.find?_eq_none.mp hf p hp
      rw [hpname] at this
      simp at this
    | some p =>
      have hpname : p.name = cfg.activeProfile := by
        have := List.find?_some hf
        simpa using this
      refine ⟨p, ?_, hpname, rfl⟩
      simp only [getActiveProfile]
      rw [hf]
  · intro hall
    have hf : (getProfiles cfg.profiles).find?
        (fun q => q.name = cfg.activeProfile) = none := by
      rw [List.find?_eq_none]
      intro p hp
      simpa using hall p hp
    cases hh : (getProfiles cfg.profiles).head? with
    | none =>
      exact absurd (by
        cases he : getProfiles cfg.profiles with
        | nil => rfl
        | cons a as => rw [he] at hh; simp at hh) (getProfiles_ne_nil _)
    | some q =>
      refine ⟨q, ?_, rfl⟩
      simp only [getActiveProfile]
      rw [hf, hh]

def cfgTwo : Config :=
  ⟨[⟨some (str "dev"), some (str "lib/main_dev.dart"), some (str "dev")⟩,
    ⟨some (str "prod"), some (str "lib/main_prod.dart"), some (str "prod")⟩],
    str "prod", true⟩

def cfgMissing : Config :=
  ⟨[⟨some (str "dev"), some (str "lib/main_dev.dart"), some (str "dev")⟩],
    str "absent", true⟩

theorem C6_witness :
    (∃ p, getActiveProfile cfgTwo = some p ∧
      p.name = cfgTwo.activeProfile ∧
      (getProfiles cfgTwo.profiles).find?
        (fun q => q.name = cfgTwo.activeProfile) = some p) ∧
    (∃ q, getActiveProfile cfgMissing = some q ∧
      (getProfiles cfgMissing.profiles).head? = some q) :=
  ⟨(C6_get_active_profile cfgTwo).1
      ⟨⟨str "prod", str "lib/main_prod.dart", str "prod"⟩,
        by decide, by decide⟩,
    (C6_get_active_profile cfgMissing).2 (by decide)⟩

def defaultProfile : RunProfile := ⟨str "default", str "lib/main.dart", []⟩

/-- Per-entry normalization of one persisted profile, as the spec states it:
an entry without a name is dropped; otherwise the returned profile carries
that entry's own name, its own entrypoint trimmed and defaulted to
`lib/main.dart` when blank, and its own flavor trimmed (empty when absent
or blank). -/
def persistedNorm (p : RawProfile) : Option RunProfile :=
  match p.name with
  | some n =>
      some ⟨n,
        (if jsTrim (p.dartEntrypoint.getD []) = [] then str "lib/main.dart"
         else jsTrim (p.dartEntrypoint.getD [])),
        jsTrim (p.flavor.getD [])⟩
  | none => none

def cfgRaw : Config :=
  ⟨[⟨some (str "dev"), some (str "   "), some (str " dev ")⟩,
    ⟨none, some (str "lib/other.dart"), some (str "x")⟩,
    ⟨some (str "prod"), some (str "lib/main_prod.dart"), none⟩],
    str "dev", true⟩

/-- C7: listing profiles on an empty persisted list yields exactly the one
synthetic `default` profile (entrypoint `lib/main.dart`, empty flavor), and
the listing operation never writes to the store (the configuration it
returns is untouched, so the synthetic profile is never persisted by
listing); moreover the returned list is exactly the per-entry normalization
of the persisted list (each returned profile carries its own persisted
entry's name, that entry's entrypoint trimmed and defaulted to
`lib/main.dart` when blank, and that entry's flavor trimmed), with the
synthetic default substituted only when no persisted entry survives. -/
theorem C7_list_profiles (cfg : Config) :
    (cfg.profiles = [] →
      (listProfiles cfg).1 = [defaultProfile] ∧ (listProfiles cfg).2 = cfg) ∧
    (listProfiles cfg).2 = cfg ∧
    (listProfiles cfg).1 =
      (if cfg.profiles.filterMap persistedNorm = [] then [defaultProfile]
       else cfg.profiles.filterMap persistedNorm) := by
  refine ⟨?_, rfl, ?_⟩
  · intro h
    constructor
    · show getProfiles cfg.profiles = [defaultProfile]
      rw [h]
      rfl
    · rfl
  · show getProfiles cfg.profiles = _
    show (if (cfg.profiles.filterMap persistedNorm).length > 0
        then cfg.profiles.filterMap persistedNorm else [defaultProfile]) = _
    by_cases h : cfg.profiles.filterMap persistedNorm = []
    · rw [if_pos h, h]
      rfl
    · rw [if_neg h, if_pos (List.length_pos.mpr h)]

theorem C7_witness :
    ((listProfiles cfgW).1 = [defaultProfile] ∧
      (listProfiles cfgW).2 = cfgW) ∧
    (listProfiles cfgRaw).1 =
      (if cfgRaw.profiles.filterMap persistedNorm = [] then [defaultProfile]
       else cfgRaw.profiles.filterMap persistedNorm) :=
  ⟨(C7_list_profiles cfgW).1 rfl,
    (C7_list_profiles cfgRaw).2.2⟩

def pubspecFlutterExample : List Char := str "flutter:\n  sdk: flutter\n"

def pubspecPlainExample : List Char :=
  str "dependencies:\n  some_pkg: ^1.0.0\n"

/-- C8: manifest detection returns true if the content has a start-of-line
top-level `flutter:` section or a `flutter`/`flutter_web_plugins` dependency
entry whose value contains `sdk: flutter` (inline-brace or indented-block
form, per the two modelled regexes); in particular the file
`flutter:\n  sdk: flutter\n` is detected and the file
`dependencies:\n  some_pkg: ^1.0.0\n` is not. -/
theorem C8_manifest_detection :
    isFlutterProject pubspecFlutterExample = true ∧
    isFlutterProject pubspecPlainExample = false ∧
    (∀ content, hasTopLevelFlutterSection (splitLines content) = true →
      isFlutterProject content = true) ∧
    (∀ content, hasFlutterSdkDependency content = true →
      isFlutterProject content = true) := by
  refine ⟨by decide, by decide, ?_, ?_⟩
  · intro content h
    unfold isFlutterProject
    rw [h]
    rfl
  · intro content h
    unfold isFlutterProject
    rw [h, Bool.or_true]

theorem C8_witness :
    isFlutterProject pubspecFlutterExample = true ∧
    isFlutterProject (str "name: app\ndependencies:\n  flutter:\n    sdk: flutter\n") = true :=
  ⟨(C8_manifest_detection).2.2.1 pubspecFlutterExample (by decide),
    (C8_manifest_detection).2.2.2
      (str "name: app\ndependencies:\n  flutter:\n    sdk: flutter\n")
      (by decide)⟩

/-- C9: renaming profile `dev` to `prod` via the edit operation when a
profile named `prod` already exists is rejected with a user-facing error
before persistence: the operation reports the duplicate error and returns
the configuration unchanged (no partial write occurs). -/
theorem C9_rename_collision (cfg : Config) (payload : FormPayload)
    (hdev : ∃ p ∈ getProfiles cfg.profiles, p.name = str "dev")
    (hprod : ∃ q ∈ getProfiles cfg.profiles, q.name = str "prod")
    (hname : jsTrim payload.name = str "prod") :
    editProfile cfg (str "dev") payload = (cfg, true) := by
  cases hf : (getProfiles cfg.profiles).find?
      (fun p => p.name = str "dev") with
  | none =>
    obtain ⟨p, hp, hpname⟩ := hdev
    have := List.find?_eq_none.mp hf p hp
    rw [hpname] at this
    simp at this
  | some target =>
    have htname : target.name = str "dev" := by
      have := List.find?_some hf
      simpa using this
    have hvalidate : validateProfileForm cfg (some target.name) payload =
        none := by
      unfold validateProfileForm
      rw [hname]
      rw [if_neg (by decide)]
      rw [if_pos ?_]
      refine ⟨?_, ?_⟩
      · rw [htname]
        decide
      · obtain ⟨q, hq, hqname⟩ := hprod
        exact List.mem_map.mpr ⟨q, hq, hqname⟩
    unfold editProfile
    simp only [hf]
    rw [hvalidate]

def cfgDevProd : Config :=
  ⟨[⟨some (str "dev"), none, none⟩, ⟨some (str "prod"), none, none⟩],
    str "dev", true⟩

theorem C9_witness :
    editProfile cfgDevProd (str "dev")
      ⟨str "prod", str "lib/main.dart", str ""⟩ = (cfgDevProd, true) :=
  C9_rename_collision cfgDevProd ⟨str "prod", str "lib/main.dart", str ""⟩
    ⟨⟨str "dev", str "lib/main.dart", []⟩, by decide, by decide⟩
    ⟨⟨str "prod", str "lib/main.dart", []⟩, by decide, by decide⟩
    (by decide)

/-- C10: when one output chunk has several lines the DevTools scanner
accepts, the URL stored after processing the chunk is the one accepted from
the last such line — each later matching line overwrites the earlier
stored URL. -/
theorem C10_last_devtools_line_wins (st : ExtState) (chunk url : List Char)
    (h : ((splitLines chunk).filterMap devtoolsLineUrl).getLast? = some url) :
    (captureDevToolsUrl st chunk).latestDevToolsUrl = some url := by
  rw [captureDevToolsUrl_spec, h]

def twoDevLines : List Char :=
  str "DevTools at: http://127.0.0.1:9100/a\nDevTools at: http://127.0.0.1:9200/b\n"

theorem C10_witness :
    (captureDevToolsUrl (initState cfgW) twoDevLines).latestDevToolsUrl =
      some (str "http://127.0.0.1:9200/b") :=
  C10_last_devtools_line_wins (initState cfgW) twoDevLines
    (str "http://127.0.0.1:9200/b") (by decide)

end FlutterRunner
